import Mathlib

/-!
Verification of the gem schema compiler and snapshot diff engine.

The Go sources (parser.go, migrator.go) are shallowly embedded below.
Strings are modelled as lists of characters (`Str`); the inputs in scope
are ASCII, so Go byte indexing and Lean character indexing coincide.
Every function follows the corresponding Go function of the same name;
helper primitives mirror the Go standard library `strings` operations
they replace.
-/

abbrev Str := List Char

/-- Coercion from a Lean string literal to the character-list model. -/
def str (s : String) : Str := s.data

/-- The backtick character, used by the SQL renderers as identifier quote. -/
def bq : Char := (str "`").headD ' '

/-- Go `unicode.IsSpace` restricted to ASCII, as used by `strings.TrimSpace` and `strings.Fields`. -/
def isGoSpace (c : Char) : Bool :=
  c = ' ' || c = '\t' || c = '\n' || c = '\r' || c = '\x0b' || c = '\x0c'

/-- Go `strings.HasPrefix p` (arguments: pattern, then string). -/
def hasPfx : Str → Str → Bool
  | [], _ => true
  | _ :: _, [] => false
  | p :: ps, c :: cs => p = c && hasPfx ps cs

/-- Strip a required leading pattern, returning the remainder on success. -/
def stripPfx : Str → Str → Option Str
  | [], s => some s
  | _ :: _, [] => none
  | p :: ps, c :: cs => if p = c then stripPfx ps cs else none

/-- Go `strings.HasSuffix p` (arguments: pattern, then string). -/
def hasSfx (p s : Str) : Bool := hasPfx p.reverse s.reverse

/-- Go `strings.Contains s p` with the pattern first. -/
def containsL (p : Str) : Str → Bool
  | [] => hasPfx p []
  | c :: cs => hasPfx p (c :: cs) || containsL p cs

/-- Go `strings.TrimSpace`. -/
def trimSpaceL (s : Str) : Str :=
  ((s.dropWhile isGoSpace).reverse.dropWhile isGoSpace).reverse

/-- Go `strings.Trim s cutset` for a one-character cutset. -/
def trimCutL (c : Char) (s : Str) : Str :=
  ((s.dropWhile (· = c)).reverse.dropWhile (· = c)).reverse

/-- Go `strings.TrimSuffix`. -/
def trimSfxL (p s : Str) : Str :=
  if hasSfx p s then (s.reverse.drop p.length).reverse else s

/-- Go `strings.Split` on a one-character separator. -/
def splitCharL (c : Char) : Str → List Str
  | [] => [[]]
  | x :: t =>
    let r := splitCharL c t
    if x = c then [] :: r
    else
      match r with
      | [] => [[x]]
      | h :: t2 => (x :: h) :: t2

/-- Go `strings.SplitN s sep 2` for a one-character separator. -/
def splitN2 (c : Char) (s : Str) : List Str :=
  let pre := s.takeWhile (· ≠ c)
  if pre.length = s.length then [s] else [pre, s.drop (pre.length + 1)]

/-- Accumulator-based worker for `fieldsL`. -/
def fieldsAux (cur : Str) : Str → List Str
  | [] => if cur.isEmpty then [] else [cur.reverse]
  | c :: t =>
    if isGoSpace c then
      if cur.isEmpty then fieldsAux [] t else cur.reverse :: fieldsAux [] t
    else fieldsAux (c :: cur) t

/-- Go `strings.Fields`: maximal runs of non-whitespace characters. -/
def fieldsL (s : Str) : List Str := fieldsAux [] s

/-- Go `strings.Join`. -/
def joinSepL (sep : Str) : List Str → Str
  | [] => []
  | [x] => x
  | x :: y :: t => x ++ sep ++ joinSepL sep (y :: t)

/-- Go `strings.ToUpper` (ASCII). -/
def toUpperL (s : Str) : Str := s.map Char.toUpper

/-- Fuel-driven worker for `splitSeqL`; fuel bounds the number of consumed characters. -/
def splitSeqAux (p : Str) : Nat → Str → List Str
  | _, [] => [[]]
  | 0, s => [s]
  | fuel + 1, c :: cs =>
    if hasPfx p (c :: cs) then [] :: splitSeqAux p fuel ((c :: cs).drop p.length)
    else
      match splitSeqAux p fuel cs with
      | [] => [[c]]
      | h :: t => (c :: h) :: t

/-- Go `strings.Split` on a multi-character separator. -/
def splitSeqL (p s : Str) : List Str := splitSeqAux p (s.length + 1) s

/-- Position of the first occurrence of a pattern, like Go `strings.Index`. -/
def firstMatchPos (p : Str) : Str → Option Nat
  | [] => if hasPfx p [] then some 0 else none
  | c :: t => if hasPfx p (c :: t) then some 0 else (firstMatchPos p t).map (· + 1)

/-- Position of the last occurrence of a single character, like Go `strings.LastIndex`. -/
def lastIdxChar (c : Char) (s : Str) : Option Nat :=
  (firstMatchPos [c] s.reverse).map (fun j => s.length - 1 - j)

/-- Go `fmt.Sscanf` with a single `%d` verb: skip spaces, optional sign, digits;
on a scan failure the target keeps the supplied default. -/
def scanIntDefault (dflt : Int) (s : Str) : Int :=
  let s1 := s.dropWhile isGoSpace
  let (neg, s2) :=
    match s1 with
    | '-' :: t => (true, t)
    | '+' :: t => (false, t)
    | _ => (false, s1)
  let ds := s2.takeWhile Char.isDigit
  if ds.isEmpty then dflt
  else
    let n : Nat := ds.foldl (fun n c => n * 10 + (c.toNat - 48)) 0
    if neg then -(n : Int) else (n : Int)

/-- One left-to-right pass replacing the two-space pattern by one space,
Go `strings.ReplaceAll ss "  " " "`. -/
def repAll2 : Str → Str
  | [] => []
  | [c] => [c]
  | a :: b :: t =>
    if a = ' ' && b = ' ' then ' ' :: repAll2 t else a :: repAll2 (b :: t)

/-- The fixed-point loop of `normalizeWhitespace`: repeat the two-space
collapse until the length stops shrinking. The fuel strictly exceeds the
possible number of iterations (every non-final iteration shortens the
string), so the zero-fuel case is unreachable and the function equals the
unbounded Go loop. -/
def normLoop : Nat → Str → Str
  | 0, s => s
  | fuel + 1, s =>
    if (repAll2 s).length = s.length then repAll2 s else normLoop fuel (repAll2 s)

/-- Go `normalizeWhitespace` (migrator.go): replace tabs and newlines with
spaces, then collapse space runs until no length change. -/
def normalizeWhitespace (s : Str) : Str :=
  normLoop (s.length + 1)
    ((s.map (fun c => if c = '\t' then ' ' else c)).map
      (fun c => if c = '\n' then ' ' else c))

/-- Go `joinStrings` (migrator.go): join with a separator, empty on empty input. -/
def joinStrings (l : List Str) (sep : Str) : Str := joinSepL sep l

/-- Association-list lookup standing in for a Go map read. -/
def lookupA {α : Type} : List (Str × α) → Str → Option α
  | [], _ => none
  | (k0, v0) :: t, k => if k0 = k then some v0 else lookupA t k

/-- Association-list write standing in for a Go map assignment
(last write wins; the key position is immaterial because Go maps are unordered). -/
def mapSet {α : Type} : List (Str × α) → Str → α → List (Str × α)
  | [], k, v => [(k, v)]
  | (k0, v0) :: t, k, v => if k0 = k then (k0, v) :: t else (k0, v0) :: mapSet t k v

/-- Association-list update of an existing entry. -/
def updateA {α : Type} (m : List (Str × α)) (k : Str) (f : α → α) : List (Str × α) :=
  m.map (fun e => if e.1 = k then (e.1, f e.2) else e)

/-- Go `sort.Strings`, modelled by insertion sort: for a linear order the
sorted permutation is unique, so any correct sorting algorithm agrees. -/
def sortStrings (l : List Str) : List Str := List.insertionSort (· ≤ ·) l

/-!
### Data model for reflected Go structs (parser.go)

A `BasicField` carries exactly the data `parseField` and `getSQLType`
read from `reflect.StructField`: the Go field name, the gorm tag string,
the type kind (with one level of pointer indirection and the special
type names consulted in the default branch), and exportedness.
-/

/-- The reflected kind of a Go field type, as consulted by `getSQLType`. -/
inductive GoKind where
  | kbool | kint | kint8 | kint16 | kint32 | kint64
  | kuint | kuint8 | kuint16 | kuint32 | kuint64
  | kfloat32 | kfloat64 | kstring
  | kptr (elem : GoKind)
  | kother (typeName : Str)
deriving DecidableEq, Repr

/-- Whether the top-level kind is a pointer, Go `field.Type.Kind() == reflect.Ptr`. -/
def GoKind.isPtr : GoKind → Bool
  | .kptr _ => true
  | _ => false

/-- The data of one `reflect.StructField` used by the parser. -/
structure BasicField where
  fname : Str
  gormTag : Str
  kind : GoKind
  exported : Bool
deriving DecidableEq, Repr

/-- A model field: its own reflection data plus, for embedded handling,
the flattened field list of its struct type. -/
structure MField where
  base : BasicField
  anonymous : Bool
  subFields : List BasicField
deriving DecidableEq, Repr

/-- A data model: Go type name, optional `TableName()` override
(the `nameable` interface), and field list in declaration order. -/
structure Model where
  typeName : Str
  tblOverride : Option Str
  fields : List MField
deriving DecidableEq, Repr

/-- Worker for `getTagValue`: first matching option wins. -/
def tagLookup : List Str → Str → Option Str
  | [], _ => none
  | opt :: rest, key =>
    let kv := splitN2 ':' opt
    if kv.headD [] = key then some (if kv.length = 2 then kv.getD 1 [] else [])
    else tagLookup rest key

/-- Go `getTagValue` (parser.go): value of a gorm tag option. -/
def getTagValue (f : BasicField) (key : Str) : Str :=
  (tagLookup (splitCharL ';' f.gormTag) key).getD []

/-- Go `hasTag` (parser.go). -/
def hasTag (f : BasicField) (key : Str) : Bool :=
  (splitCharL ';' f.gormTag).any (fun opt => opt = key || hasPfx (key ++ [':']) opt)

/-- Lowercase ASCII letter test, Go `prev >= 'a' && prev <= 'z'`. -/
def isLowerAZ (c : Char) : Bool := 'a' ≤ c && c ≤ 'z'

/-- Uppercase ASCII letter test. -/
def isUpperAZ (c : Char) : Bool := 'A' ≤ c && c ≤ 'Z'

/-- Worker for `toSnakeCase`, walking the remaining characters while
tracking the current index into the full string. -/
def toSnakeAux (s : Str) : Nat → Str → Str
  | _, [] => []
  | i, r :: rest =>
    let und : Str :=
      if i > 0 && isUpperAZ r then
        if isLowerAZ (s.getD (i - 1) ' ') then ['_']
        else if !rest.isEmpty && isLowerAZ (rest.headD ' ') then
          if i > 1 then ['_'] else []
        else []
      else []
    und ++ (r.toLower :: toSnakeAux s (i + 1) rest)

/-- Go `toSnakeCase` (parser.go). -/
def toSnakeCase (s : Str) : Str := toSnakeAux s 0 s

/-- Go `toPlural` (parser.go). -/
def toPlural (s : Str) : Str :=
  if hasSfx (str "s") s || hasSfx (str "x") s || hasSfx (str "z") s ||
      hasSfx (str "ch") s || hasSfx (str "sh") s then
    s ++ str "es"
  else if hasSfx (str "y") s && s.length > 1 &&
      (let lastChar := s.getD (s.length - 2) ' '
       lastChar ≠ 'a' && lastChar ≠ 'e' && lastChar ≠ 'i' &&
       lastChar ≠ 'o' && lastChar ≠ 'u') then
    s.take (s.length - 1) ++ str "ies"
  else s ++ str "s"

/-- Go `getTableName` (parser.go): `TableName()` override, otherwise the
pluralized snake-case type name. -/
def getTableName (m : Model) : Str :=
  match m.tblOverride with
  | some n => n
  | none => toPlural (toSnakeCase m.typeName)

/-- Go `getColumnName` (parser.go). -/
def getColumnName (f : BasicField) : Str :=
  let columnName := getTagValue f (str "column")
  if columnName.isEmpty then toSnakeCase f.fname else columnName

/-- Go `getSQLType` (parser.go): SQL type for a field, with the
unconditional `NULL` marker for non-primary-key pointer fields. -/
def getSQLType (f : BasicField) : Str :=
  let tv := getTagValue f (str "type")
  if !tv.isEmpty then
    let sqlType := toUpperL tv
    if f.kind.isPtr && !hasTag f (str "primaryKey") then sqlType ++ str " NULL" else sqlType
  else
    let precision := getTagValue f (str "precision")
    let scale := getTagValue f (str "scale")
    if !precision.isEmpty then
      if !scale.isEmpty then str "DECIMAL(" ++ precision ++ str "," ++ scale ++ str ")"
      else str "DECIMAL(" ++ precision ++ str ")"
    else
      let size := getTagValue f (str "size")
      let (isPtr, fieldKind) :=
        match f.kind with
        | .kptr k => (true, k)
        | k => (false, k)
      let sqlType :=
        match fieldKind with
        | .kbool => str "BOOLEAN"
        | .kint => str "INTEGER"
        | .kint32 => str "INTEGER"
        | .kint8 => str "TINYINT"
        | .kint16 => str "SMALLINT"
        | .kint64 => str "BIGINT"
        | .kuint => str "INTEGER UNSIGNED"
        | .kuint8 => str "TINYINT UNSIGNED"
        | .kuint16 => str "SMALLINT UNSIGNED"
        | .kuint32 => str "INTEGER UNSIGNED"
        | .kuint64 => str "BIGINT UNSIGNED"
        | .kfloat32 => str "FLOAT"
        | .kfloat64 => str "DOUBLE"
        | .kstring =>
          if !size.isEmpty then str "VARCHAR(" ++ size ++ str ")" else str "VARCHAR(255)"
        | .kother tn =>
          if tn = str "time.Time" then str "DATETIME"
          else if tn = str "[]byte" then str "BLOB"
          else str "VARCHAR(255)"
        | .kptr _ => str "VARCHAR(255)"
      if isPtr && !hasTag f (str "primaryKey") then sqlType ++ str " NULL" else sqlType

/-- The constraint list assembled by `parseField` (parser.go), in the
fixed order auto-increment, check, unique, not-null, default, comment. -/
def parseFieldConstraints (f : BasicField) : List Str :=
  (if hasTag f (str "autoIncrement") then [str "AUTO_INCREMENT"] else []) ++
  (let check := getTagValue f (str "check")
   if !check.isEmpty then [str "CHECK (" ++ check ++ str ")"] else []) ++
  (if hasTag f (str "unique") then [str "UNIQUE"] else []) ++
  (if hasTag f (str "not null") || (!f.kind.isPtr && !hasTag f (str "default")) then
     [str "NOT NULL"] else []) ++
  (let dv := getTagValue f (str "default")
   if !dv.isEmpty then [str "DEFAULT " ++ dv] else []) ++
  (let cm := getTagValue f (str "comment")
   if !cm.isEmpty then [str "COMMENT '" ++ trimCutL '\'' cm ++ str "'"] else [])

/-- Go `parseField` (parser.go): rendered column definition, empty for
fields excluded from migration. -/
def parseField (f : BasicField) : Str :=
  let ignore := getTagValue f (str "-")
  if ignore = str "all" || ignore = str "migration" then []
  else
    let columnName := getColumnName f
    let sqlType := getSQLType f
    let constraints := parseFieldConstraints f
    if constraints.length > 0 then
      str "`" ++ columnName ++ str "` " ++ sqlType ++ str " " ++ joinSepL (str " ") constraints
    else
      str "`" ++ columnName ++ str "` " ++ sqlType

/-- Go `parseEmbeddedField` (parser.go): render the sub-fields, applying
the embedded-column name surgery when a non-empty name predecessor is given. -/
def parseEmbeddedField (subFields : List BasicField) (embPfx : Str) : List Str :=
  subFields.foldl
    (fun cols f =>
      if !f.exported then cols
      else
        let column := parseField f
        if column.isEmpty then cols
        else if embPfx.isEmpty then cols ++ [column]
        else
          let parts := splitN2 ' ' column
          let columnName := trimCutL bq (parts.headD [])
          cols ++ [str "`" ++ embPfx ++ columnName ++ str "` " ++ parts.getD 1 []])
    []

/-- Per-index collected data (parser.go `indexInfo`). -/
structure indexInfo where
  name : Str
  columns : List Str
  isUnique : Bool
  priorities : List (Str × Int)
deriving DecidableEq, Repr

/-- The index-tag value split into name and priority: Go reads an optional
`,priority:` suffix via `fmt.Sscanf`, defaulting to 0 on a malformed number. -/
def idxNameAndPriority (raw : Str) : Str × Int :=
  if containsL (str ",priority:") raw then
    let parts := splitSeqL (str ",priority:") raw
    (parts.headD [],
     if parts.length > 1 then scanIntDefault 0 (parts.getD 1 []) else 0)
  else (raw, 0)

/-- One index-tag handling step of `parseModel` (parser.go): shared for the
`index` and `uniqueIndex` tags, which differ in uniqueness and synthetic name. -/
def addIndexEntry (indexes : List (Str × indexInfo)) (f : BasicField)
    (tagKey : Str) (isUnique : Bool) (autoPfx : Str) : List (Str × indexInfo) :=
  if hasTag f tagKey then
    let raw := getTagValue f tagKey
    let columnName := getColumnName f
    let (indexName, priority) := idxNameAndPriority raw
    if indexName.isEmpty then
      let indexName := autoPfx ++ columnName
      mapSet indexes indexName
        ⟨indexName, [columnName], isUnique, [(columnName, priority)]⟩
    else
      match lookupA indexes indexName with
      | some _ =>
        updateA indexes indexName (fun idx =>
          { idx with
            columns := idx.columns ++ [columnName]
            priorities := mapSet idx.priorities columnName priority })
      | none =>
        indexes ++ [(indexName, ⟨indexName, [columnName], isUnique, [(columnName, priority)]⟩)]
  else indexes

/-- Go `parseModel` (parser.go): table name, rendered column list, and the
collected indexes. The Go map of indexes is modelled as an insertion-ordered
association list; the caller sorts all rendered statements, which erases
the unspecified Go map iteration order. -/
def parseModel (m : Model) : Str × List Str × List (Str × indexInfo) :=
  let tableName := getTableName m
  let (columns, indexes) :=
    m.fields.foldl
      (fun (acc : List Str × List (Str × indexInfo)) mf =>
        let (columns, indexes) := acc
        if !mf.base.exported then acc
        else if mf.anonymous || hasTag mf.base (str "embedded") then
          (columns ++ parseEmbeddedField mf.subFields (getTagValue mf.base (str "embeddedPrefix")),
           indexes)
        else
          let column := parseField mf.base
          let columns := if column.isEmpty then columns else columns ++ [column]
          let indexes := addIndexEntry indexes mf.base (str "index") false (str "idx_")
          let indexes := addIndexEntry indexes mf.base (str "uniqueIndex") true (str "udx_")
          (columns, indexes))
      ([], [])
  (tableName, columns, indexes)

/-- Priority comparison used for the stable column sort inside
`parseModelToSQLWithIndexes` (Go `sort.SliceStable` by ascending priority). -/
def prioLE (a b : Str × Int) : Prop := a.2 ≤ b.2

instance : DecidableRel prioLE := fun a b => inferInstanceAs (Decidable (a.2 ≤ b.2))

instance : IsTotal (Str × Int) prioLE := ⟨fun a b => le_total a.2 b.2⟩

instance : IsTrans (Str × Int) prioLE := ⟨fun _ _ _ h1 h2 => le_trans h1 h2⟩

/-- The per-index column ordering of `parseModelToSQLWithIndexes`
(parser.go): pair each column with its priority and sort stably by
ascending priority. Go `sort.SliceStable` is modelled by insertion sort;
both are stable and sorted, which determines the output uniquely. -/
def sortIdxColumns (idx : indexInfo) : List Str :=
  let sortedColumns := idx.columns.map (fun col => (col, (lookupA idx.priorities col).getD 0))
  let sortedColumns :=
    if idx.priorities.length > 0 then List.insertionSort prioLE sortedColumns
    else sortedColumns
  sortedColumns.map (·.1)

/-- The rendered `CREATE [UNIQUE] INDEX` statement of one collected index
(parser.go `parseModelToSQLWithIndexes`). -/
def indexStatement (tableName : Str) (idx : indexInfo) : Str :=
  let orderedColumns := sortIdxColumns idx
  if idx.isUnique then
    str "CREATE UNIQUE INDEX " ++ idx.name ++ str " ON `" ++ tableName ++ str "` (`" ++
      joinSepL (str "`, `") orderedColumns ++ str "`);"
  else
    str "CREATE INDEX " ++ idx.name ++ str " ON `" ++ tableName ++ str "` (`" ++
      joinSepL (str "`, `") orderedColumns ++ str "`);"

/-- The primary-key scan of `parseModelToSQLWithIndexes` (parser.go):
first field carrying a `primaryKey` tag, by declaration order. -/
def findPrimaryKeyName (m : Model) : Str :=
  match m.fields.find? (fun mf => hasTag mf.base (str "primaryKey")) with
  | some mf => getColumnName mf.base
  | none => []

/-- Go `parseModelToSQLWithIndexes` (parser.go): the rendered
`CREATE TABLE` statement and the lexicographically sorted index
statements. The Go version also returns an error value that is always nil. -/
def parseModelToSQLWithIndexes (m : Model) : Str × List Str :=
  let (tableName, columns0, indexes) := parseModel m
  let primaryKeyName := findPrimaryKeyName m
  let columns :=
    if primaryKeyName.isEmpty then columns0
    else columns0 ++ [str "PRIMARY KEY (`" ++ primaryKeyName ++ str "`)"]
  let createTable :=
    str "CREATE TABLE `" ++ tableName ++ str "` (\n  " ++
      joinSepL (str ",\n  ") columns ++ str "\n);"
  let indexStatements := indexes.map (fun e => indexStatement tableName e.2)
  (createTable, sortStrings indexStatements)

/-!
### Migrator embedding (migrator.go)
-/

/-- Go `MigrationTool` (migrator.go). -/
inductive MigrationTool where
  | rawSQL | goose | goMigrate
deriving DecidableEq, Repr

/-- Go `MigratorConfig` (migrator.go). -/
structure MigratorConfig where
  format : MigrationTool
  exportDir : Str
  keepDroppedColumn : Bool
deriving DecidableEq, Repr

/-- Go `modelSnapshot` (migrator.go). -/
structure modelSnapshot where
  name : Str
  hash : Str
  schema : Str
  indexes : List Str
deriving DecidableEq, Repr

/-- Go `columnDef` (migrator.go); the Go field `Type` is `ty` here. -/
structure columnDef where
  name : Str
  ty : Str
  constraints : List Str
deriving DecidableEq, Repr

/-- Go `tableDef` (migrator.go). -/
structure tableDef where
  name : Str
  columns : List columnDef
  indexes : List Str
deriving DecidableEq, Repr

/-- Go `alterOperation` (migrator.go). -/
structure alterOperation where
  up : Str
  down : Str
deriving DecidableEq, Repr

/-- Go `indexDef` (migrator.go). -/
structure indexDef where
  name : Str
  columns : List Str
  isUnique : Bool
  tableName : Str
deriving DecidableEq, Repr

/-- Worker for `removeDuplicates`, carrying the seen-set. -/
def removeDupsAux (seen : List Str) : List Str → List Str
  | [] => []
  | x :: t => if x ∈ seen then removeDupsAux seen t else x :: removeDupsAux (x :: seen) t

/-- Go `removeDuplicates` (migrator.go): keep the first occurrence of each element. -/
def removeDuplicates (l : List Str) : List Str := removeDupsAux [] l

/-- Go `indexDef.ToSQL` (migrator.go): render after collapsing duplicate columns. -/
def toSQL (idx : indexDef) : Str :=
  let cols := removeDuplicates idx.columns
  if idx.isUnique then
    str "CREATE UNIQUE INDEX " ++ idx.name ++ str " ON " ++ idx.tableName ++ str " (" ++
      joinSepL (str ", ") cols ++ str ");"
  else
    str "CREATE INDEX " ++ idx.name ++ str " ON " ++ idx.tableName ++ str " (" ++
      joinSepL (str ", ") cols ++ str ");"

/-- The generated-hash function of the migrator: md5 of the
whitespace-normalized schema and index texts. The md5 digest itself is an
external library call and is passed in as a parameter. -/
def generateHash (md5Hex : Str → Str) (schema : Str) (indexes : List Str) : Str :=
  md5Hex (normalizeWhitespace schema ++
    indexes.foldl (fun acc idx => acc ++ normalizeWhitespace idx) [])

/-- Go `findSnapshot` (migrator.go): first snapshot with the given name. -/
def findSnapshot : List modelSnapshot → Str → Option modelSnapshot
  | [], _ => none
  | s :: rest, name => if s.name = name then some s else findSnapshot rest name

/-- In-place mutation of the found snapshot, modelled as replacing the
first entry with the given name. -/
def replaceSnapshot : List modelSnapshot → Str → modelSnapshot → List modelSnapshot
  | [], _, _ => []
  | s :: rest, name, v => if s.name = name then v :: rest else s :: replaceSnapshot rest name v

/-- The regex `CREATE TABLE BACKTICK(\w+)BACKTICK \(([\s\S]+)\);` of
`parseCreateTable`, attempted at the start of the given suffix. The first
capture is a maximal nonempty run of word characters; the second is
greedy, so it extends to the last occurrence of the closing marker. -/
def matchCreateAt (s : Str) : Option (Str × Str) :=
  match stripPfx (str "CREATE TABLE `") s with
  | none => none
  | some s1 =>
    let nm := s1.takeWhile (fun c => c.isAlphanum || c = '_')
    if nm.isEmpty then none
    else
      match stripPfx (str "` (") (s1.drop nm.length) with
      | none => none
      | some s2 =>
        match firstMatchPos (str ");").reverse s2.reverse with
        | none => none
        | some j =>
          let content := (s2.reverse.drop (j + 2)).reverse
          if content.isEmpty then none else some (nm, content)

/-- Leftmost match of the `CREATE TABLE` regex, like Go `FindStringSubmatch`. -/
def matchCreateFirst : Str → Option (Str × Str)
  | [] => none
  | c :: t =>
    match matchCreateAt (c :: t) with
    | some r => some r
    | none => matchCreateFirst t

/-- Net parenthesis count of a line, the per-line contribution to the
`inParentheses` counter of `parseCreateTable`. -/
def parenDelta (line : Str) : Int :=
  line.foldl (fun n c => if c = '(' then n + 1 else if c = ')' then n - 1 else n) 0

/-- Loop state of the column-splitting loop in `parseCreateTable`. -/
structure ParseSt where
  cols : List columnDef
  cur : Str
  parens : Int
deriving DecidableEq, Repr

/-- One line of the column-splitting loop of `parseCreateTable`
(migrator.go). `columnsStr` is the full second regex capture; the
completion test slices it at the length of the accumulated definition,
exactly as the Go code does. (On the inputs in scope that length never
exceeds the capture length, where Go would panic; `List.drop` then
yields the empty list.) -/
def processLine (columnsStr : Str) (st : ParseSt) (line0 : Str) : ParseSt :=
  let line := trimSpaceL line0
  if line.isEmpty then st
  else
    let parens := st.parens + parenDelta line
    let cur := if st.cur.isEmpty then line else st.cur ++ [' '] ++ line
    if parens = 0 && (hasSfx (str ",") line || !containsL (str ",") (columnsStr.drop cur.length)) then
      let cur2 := trimSfxL (str ",") cur
      match fieldsL cur2 with
      | p0 :: p1 :: rest =>
        if toUpperL p0 = str "PRIMARY" && toUpperL p1 = str "KEY" then
          { cols := st.cols, cur := [], parens := parens }
        else
          { cols := st.cols ++ [⟨trimCutL bq p0, p1, rest⟩], cur := [], parens := parens }
      | _ => { cols := st.cols, cur := cur2, parens := parens }
    else { cols := st.cols, cur := cur, parens := parens }

/-- Go `parseCreateTable` (migrator.go). -/
def parseCreateTable (sql : Str) : Except Str tableDef :=
  let sql := trimSpaceL sql
  match matchCreateFirst sql with
  | none => .error (str "invalid CREATE TABLE syntax")
  | some (tableName, columnsStr) =>
    let st := (splitCharL '\n' columnsStr).foldl (processLine columnsStr) ⟨[], [], 0⟩
    .ok { name := tableName, columns := st.cols, indexes := [] }

/-- One statement of Go `parseIndexes` (migrator.go): parse a
`CREATE [UNIQUE] INDEX` statement and merge it into the accumulated map.
When the statement lacks a closing parenthesis Go would panic on the
negative slice index; the generated statements in scope always contain
one, and the model then takes an empty slice. -/
def parseIndexStep (result : List (Str × indexDef)) (idx : Str) : List (Str × indexDef) :=
  let parts := fieldsL idx
  if parts.length < 6 then result
  else
    let isUnique := toUpperL (parts.getD 1 []) = str "UNIQUE"
    let startIdx := if isUnique then 3 else 2
    let name := parts.getD startIdx []
    let tableName := parts.getD (startIdx + 2) []
    let start := match firstMatchPos (str "(") idx with | some i => i + 1 | none => 0
    let stop := match lastIdxChar ')' idx with | some j => j | none => start
    let columnsStr := (idx.drop start).take (stop - start)
    let columns := (splitCharL ',' columnsStr).map
      (fun c => trimSfxL (str ");") (trimSfxL (str ";") (trimSpaceL c)))
    match lookupA result name with
    | some _ => updateA result name (fun e => { e with columns := e.columns ++ columns })
    | none => result ++ [(name, ⟨name, columns, isUnique, tableName⟩)]

/-- Go `parseIndexes` (migrator.go): fold the statements, then collapse
duplicate columns in every entry. -/
def parseIndexes (indexes : List Str) : List (Str × indexDef) :=
  (indexes.foldl parseIndexStep []).map
    (fun e => (e.1, { e.2 with columns := removeDuplicates e.2.columns }))

/-- Go `compareColumnDef` (migrator.go): same type and identical
constraint list, order-sensitively. -/
def compareColumnDef (old new : columnDef) : Bool :=
  if old.ty ≠ new.ty then false
  else old.constraints == new.constraints

/-- Go `compareIndexDef` (migrator.go): uniqueness must match exactly,
columns are compared as sorted lists. -/
def compareIndexDef (old new : indexDef) : Bool :=
  if old.isUnique ≠ new.isUnique then false
  else if old.columns.length ≠ new.columns.length then false
  else sortStrings old.columns == sortStrings new.columns

/-- Column map construction of `compareColumns`: later writes win. -/
def buildColMap (cols : List columnDef) : List (Str × columnDef) :=
  cols.foldl (fun m c => mapSet m c.name c) []

/-- Go `compareColumns` (migrator.go). Note that the v1 source interpolates
the map key (a column name) into the table position of every ALTER
statement; the embedding reproduces that verbatim. -/
def compareColumns (conf : MigratorConfig) (oldCols newCols : List columnDef) :
    List alterOperation :=
  let oldColMap := buildColMap oldCols
  let newColMap := buildColMap newCols
  let ops1 := newColMap.foldl
    (fun ops e =>
      let (name, newCol) := e
      match lookupA oldColMap name with
      | none =>
        ops ++ [⟨str "ALTER TABLE `" ++ name ++ str "` ADD COLUMN `" ++ newCol.name ++
                  str "` " ++ newCol.ty ++ str " " ++ joinSepL (str " ") newCol.constraints ++ str ";",
                str "ALTER TABLE `" ++ name ++ str "` DROP COLUMN `" ++ newCol.name ++ str "`;"⟩]
      | some oldCol =>
        if compareColumnDef oldCol newCol then ops
        else
          ops ++ [⟨str "ALTER TABLE `" ++ name ++ str "` MODIFY COLUMN `" ++ newCol.name ++
                    str "` " ++ newCol.ty ++ str " " ++ joinSepL (str " ") newCol.constraints ++ str ";",
                  str "ALTER TABLE `" ++ name ++ str "` MODIFY COLUMN `" ++ oldCol.name ++
                    str "` " ++ oldCol.ty ++ str " " ++ joinSepL (str " ") oldCol.constraints ++ str ";"⟩])
    []
  let ops2 :=
    if conf.keepDroppedColumn then []
    else
      oldColMap.foldl
        (fun ops e =>
          let (name, oldCol) := e
          match lookupA newColMap name with
          | some _ => ops
          | none =>
            ops ++ [⟨str "ALTER TABLE `" ++ name ++ str "` DROP COLUMN `" ++ oldCol.name ++ str "`;",
                    str "ALTER TABLE `" ++ name ++ str "` ADD COLUMN `" ++ oldCol.name ++
                      str "` " ++ oldCol.ty ++ str " " ++ joinSepL (str " ") oldCol.constraints ++ str ";"⟩])
        []
  ops1 ++ ops2

/-- Go `compareIndexes` (migrator.go). -/
def compareIndexes (oldIndexes newIndexes : List Str) : List alterOperation :=
  let oldIndexMap := parseIndexes oldIndexes
  let newIndexMap := parseIndexes newIndexes
  let ops1 := newIndexMap.foldl
    (fun ops e =>
      let (name, newIdx) := e
      match lookupA oldIndexMap name with
      | none => ops ++ [⟨toSQL newIdx, str "DROP INDEX " ++ name ++ str ";"⟩]
      | some oldIdx =>
        if compareIndexDef oldIdx newIdx then ops
        else
          ops ++ [⟨str "DROP INDEX " ++ name ++ str ";\n" ++ toSQL newIdx,
                  str "DROP INDEX " ++ name ++ str ";\n" ++ toSQL oldIdx⟩])
    []
  let ops2 := oldIndexMap.foldl
    (fun ops e =>
      let (name, oldIdx) := e
      match lookupA newIndexMap name with
      | some _ => ops
      | none => ops ++ [⟨str "DROP INDEX " ++ name ++ str ";", toSQL oldIdx⟩])
    []
  ops1 ++ ops2

/-- Go `generateAlterStatements` (migrator.go): parse both sides, compare
columns then indexes, and collect the nonempty up and down statements. -/
def generateAlterStatements (conf : MigratorConfig) (snapshots : List modelSnapshot)
    (tableName : Str) (newSchema : Str) (newIndexes : List Str) : List Str × List Str :=
  match parseCreateTable newSchema with
  | .error e => ([str "-- Error parsing new schema: " ++ e], [])
  | .ok newDef =>
    match findSnapshot snapshots tableName with
    | none => ([str "-- 無法找到表 " ++ tableName ++ str " 的快照"], [])
    | some snapshot =>
      match parseCreateTable snapshot.schema with
      | .error e => ([str "-- Error parsing old schema: " ++ e], [])
      | .ok oldDef =>
        let ops := compareColumns conf oldDef.columns newDef.columns ++
          compareIndexes snapshot.indexes newIndexes
        (ops.foldl (fun ups op => if op.up.isEmpty then ups else ups ++ [op.up]) [],
         ops.foldl (fun downs op => if op.down.isEmpty then downs else downs ++ [op.down]) [])

/-- Go `generateMigrationFile` (migrator.go), modelled as returning the
(filename, content) pairs it writes; the timestamp is external input. -/
def generateMigrationFile (conf : MigratorConfig) (snapshots : List modelSnapshot)
    (timestamp : Str) (modelName schema : Str) (indexes : List Str) (isNew : Bool) :
    List (Str × Str) :=
  if isNew then
    match conf.format with
    | .rawSQL =>
      [(timestamp ++ str "_create_" ++ modelName ++ str ".sql",
        schema ++ str "\n" ++ joinStrings indexes (str "\n"))]
    | .goose =>
      [(timestamp ++ str "_create_" ++ modelName ++ str ".sql",
        str "-- +goose Up\n" ++ schema ++ str "\n" ++ joinStrings indexes (str "\n") ++
          str "\n\n-- +goose Down\nDROP TABLE IF EXISTS " ++ modelName ++ str ";\n")]
    | .goMigrate =>
      [(timestamp ++ str "_create_" ++ modelName ++ str ".up.sql",
        schema ++ str "\n" ++ joinStrings indexes (str "\n")),
       (timestamp ++ str "_create_" ++ modelName ++ str ".down.sql",
        str "DROP TABLE IF EXISTS " ++ modelName ++ str ";")]
  else
    let (upStatements, downStatements) :=
      generateAlterStatements conf snapshots modelName schema indexes
    match conf.format with
    | .rawSQL =>
      [(timestamp ++ str "_alter_" ++ modelName ++ str ".sql",
        joinStrings upStatements (str "\n"))]
    | .goose =>
      [(timestamp ++ str "_alter_" ++ modelName ++ str ".sql",
        str "-- +goose Up\n" ++ joinStrings upStatements (str "\n") ++
          str "\n\n-- +goose Down\n" ++ joinStrings downStatements (str "\n") ++ str "\n")]
    | .goMigrate =>
      [(timestamp ++ str "_alter_" ++ modelName ++ str ".up.sql",
        joinStrings upStatements (str "\n")),
       (timestamp ++ str "_alter_" ++ modelName ++ str ".down.sql",
        joinStrings downStatements (str "\n"))]

/-- The snapshot name used by `Run` (migrator.go): the snake-case type
name, or the `TableName()` override. Unlike the schema table name it is
not pluralized. -/
def runModelName (m : Model) : Str :=
  match m.tblOverride with
  | some n => n
  | none => toSnakeCase m.typeName

/-- One iteration of the model loop of Go `Run` (migrator.go): compile the
model, compare hashes against the stored snapshot, emit files and update
the snapshot store. Returns the emitted files and the new store. -/
def processModel (conf : MigratorConfig) (md5Hex : Str → Str) (timestamp : Str)
    (snapshots : List modelSnapshot) (m : Model) :
    List (Str × Str) × List modelSnapshot :=
  let (schema, indexes) := parseModelToSQLWithIndexes m
  let modelName := runModelName m
  let newHash := generateHash md5Hex schema indexes
  match findSnapshot snapshots modelName with
  | none =>
    (generateMigrationFile conf snapshots timestamp modelName schema indexes true,
     snapshots ++ [⟨modelName, newHash, schema, indexes⟩])
  | some snapshot =>
    if snapshot.hash ≠ newHash then
      let upStatements := (generateAlterStatements conf snapshots modelName schema indexes).1
      if upStatements.length > 0 then
        (generateMigrationFile conf snapshots timestamp modelName schema indexes false,
         replaceSnapshot snapshots modelName ⟨modelName, newHash, schema, indexes⟩)
      else ([], snapshots)
    else ([], snapshots)

/-- The model loop of Go `Run` (migrator.go): process every model in
order, threading the snapshot store. -/
def runModels (conf : MigratorConfig) (md5Hex : Str → Str) (timestamp : Str) :
    List modelSnapshot → List Model → List (Str × Str) × List modelSnapshot
  | snaps, [] => ([], snaps)
  | snaps, m :: rest =>
    let (files, snaps2) := processModel conf md5Hex timestamp snaps m
    let (files2, snaps3) := runModels conf md5Hex timestamp snaps2 rest
    (files ++ files2, snaps3)

/-!
### Auxiliary definitions used by the verification statements
-/

/-- No two consecutive space characters anywhere in the string. -/
def noDS : Str → Bool
  | [] => true
  | [_] => true
  | a :: b :: t => !(a = ' ' && b = ' ') && noDS (b :: t)

/-- The priority a column receives inside `sortIdxColumns`: the map entry,
defaulting to 0 when absent. -/
def prioOf (idx : indexInfo) (col : Str) : Int :=
  ((lookupA idx.priorities col).getD 0)

/-- A word character of the Go regex class `\w`. -/
def isWordChar (c : Char) : Bool := c.isAlphanum || c = '_'

/-- The structured column definition assembled by `parseField` before
rendering: name, SQL type, ordered constraint list. This is the
ColumnDefinition of the specification data model, read off the same code
path as `parseField`. -/
structure producedColumn where
  name : Str
  sqlType : Str
  constraints : List Str
deriving DecidableEq, Repr

/-- The structured form of `parseField` for one field. -/
def parseFieldDef (f : BasicField) : producedColumn :=
  ⟨getColumnName f, getSQLType f, parseFieldConstraints f⟩

/-- The definition text after the quoted column name: type, then the
constraints separated by single spaces. -/
def defBody (d : producedColumn) : Str :=
  d.sqlType ++ (if d.constraints.length > 0 then str " " ++ joinSepL (str " ") d.constraints else [])

/-- Rendering of a structured column definition; `parseField` produces
exactly this string for a non-excluded field. -/
def renderDef (d : producedColumn) : Str :=
  str "`" ++ d.name ++ str "` " ++ defBody d

/-- The field-exclusion test at the top of `parseField`. -/
def ignoredField (f : BasicField) : Bool :=
  getTagValue f (str "-") = str "all" || getTagValue f (str "-") = str "migration"

/-- The embedded-column prefixing on the structured side: mirror of the
string surgery in `parseEmbeddedField`. -/
def prefixedDef (embPfx : Str) (d : producedColumn) : producedColumn :=
  if embPfx.isEmpty then d else { d with name := embPfx ++ d.name }

/-- Structured column list contributed by an embedded field. -/
def embeddedDefs (subFields : List BasicField) (embPfx : Str) : List producedColumn :=
  subFields.foldl
    (fun cols f =>
      if !f.exported then cols
      else if ignoredField f then cols
      else cols ++ [prefixedDef embPfx (parseFieldDef f)])
    []

/-- Structured column list of a model, following the column-building
traversal of `parseModel`. -/
def parseModelDefs (m : Model) : List producedColumn :=
  m.fields.foldl
    (fun cols mf =>
      if !mf.base.exported then cols
      else if mf.anonymous || hasTag mf.base (str "embedded") then
        cols ++ embeddedDefs mf.subFields (getTagValue mf.base (str "embeddedPrefix"))
      else if ignoredField mf.base then cols
      else cols ++ [parseFieldDef mf.base])
    []

/-- The column that the diff grammar recovers from a rendered definition:
the same name, and the type and constraints re-tokenized on whitespace. -/
def reparsedOf (d : producedColumn) : columnDef :=
  ⟨d.name, (fieldsL (defBody d)).headD [], (fieldsL (defBody d)).drop 1⟩

/-- Well-formedness of a produced column for the round-trip analysis: a
nonempty word-character name, a definition body with at least one token,
no newline, balanced parentheses, and no trailing whitespace. -/
def wfProducedCol (d : producedColumn) : Bool :=
  !d.name.isEmpty && d.name.all isWordChar &&
  !(fieldsL (defBody d)).isEmpty &&
  (defBody d).all (fun c => c ≠ '\n') &&
  parenDelta (defBody d) == 0 &&
  !(isGoSpace ((defBody d).reverse.headD bq))

/-- The rendered `PRIMARY KEY` clause appended by `parseModelToSQLWithIndexes`. -/
def pkLine (pk : Str) : Str := str "PRIMARY KEY (`" ++ pk ++ str "`)"

/-- The lines the diff grammar splits the rendered column block into:
every column but the last is followed by the join comma. -/
def buildLines : List Str → List Str
  | [] => [[]]
  | [c] => [str "  " ++ c, []]
  | c :: c2 :: rest => (str "  " ++ c ++ str ",") :: buildLines (c2 :: rest)

/-- Column strings contributed by one model field: the per-field effect of
the column-building branch of `parseModel`. -/
def colContrib (mf : MField) : List Str :=
  if !mf.base.exported then []
  else if mf.anonymous || hasTag mf.base (str "embedded") then
    parseEmbeddedField mf.subFields (getTagValue mf.base (str "embeddedPrefix"))
  else if (parseField mf.base).isEmpty then []
  else [parseField mf.base]

/-- Index-map update contributed by one model field: the per-field effect of
the index-building branch of `parseModel`. -/
def idxContrib (idx : List (Str × indexInfo)) (mf : MField) : List (Str × indexInfo) :=
  if !mf.base.exported then idx
  else if mf.anonymous || hasTag mf.base (str "embedded") then idx
  else
    addIndexEntry (addIndexEntry idx mf.base (str "index") false (str "idx_"))
      mf.base (str "uniqueIndex") true (str "udx_")

/-- The accumulator step of the field fold of `parseModel`, phrased through
the per-field contributions. -/
def pmStep (acc : List Str × List (Str × indexInfo)) (mf : MField) :
    List Str × List (Str × indexInfo) :=
  (acc.1 ++ colContrib mf, idxContrib acc.2 mf)

/-- Structured columns contributed by one model field. -/
def defContrib (mf : MField) : List producedColumn :=
  if !mf.base.exported then []
  else if mf.anonymous || hasTag mf.base (str "embedded") then
    embeddedDefs mf.subFields (getTagValue mf.base (str "embeddedPrefix"))
  else if ignoredField mf.base then []
  else [parseFieldDef mf.base]

/-- Column string contributed by one embedded sub-field, with the
name-prefix surgery of `parseEmbeddedField`. -/
def subColContrib (embPfx : Str) (f : BasicField) : List Str :=
  if !f.exported then []
  else if (parseField f).isEmpty then []
  else if embPfx.isEmpty then [parseField f]
  else
    [str "`" ++ embPfx ++ trimCutL bq ((splitN2 ' ' (parseField f)).headD []) ++
      str "` " ++ (splitN2 ' ' (parseField f)).getD 1 []]

/-- Structured column contributed by one embedded sub-field. -/
def subDefContrib (embPfx : Str) (f : BasicField) : List producedColumn :=
  if !f.exported then []
  else if ignoredField f then []
  else [prefixedDef embPfx (parseFieldDef f)]

/-!
### Concrete fixtures for witnesses and counterexamples
-/

/-- A non-pointer field annotated with check, unique, default and comment. -/
def c2Field : BasicField :=
  ⟨str "Age", str "check:age > 13;unique;default:18;comment:hello", .kint, true⟩

/-- A pointer field with a default value and no not-null override. -/
def c3Field : BasicField := ⟨str "Age", str "default:18", .kptr .kint, true⟩

/-- A single-field model with a primary key. -/
def c4Model : Model :=
  ⟨str "Item", none, [⟨⟨str "ID", str "primaryKey", .kint, true⟩, false, []⟩]⟩

/-- Two fields contributing the same column name to the same index. -/
def dupModel : Model :=
  ⟨str "Dup", none,
   [⟨⟨str "D1", str "column:c;index:i", .kstring, true⟩, false, []⟩,
    ⟨⟨str "D2", str "column:c;index:i", .kstring, true⟩, false, []⟩]⟩

/-- Two fields sharing one uniqueIndex name with priorities 2 and 1. -/
def compModel : Model :=
  ⟨str "Comp", none,
   [⟨⟨str "A", str "uniqueIndex:udx_ab,priority:2", .kstring, true⟩, false, []⟩,
    ⟨⟨str "B", str "uniqueIndex:udx_ab,priority:1", .kstring, true⟩, false, []⟩]⟩

/-- A one-field model used by the migrator fixtures. -/
def c1Model : Model :=
  ⟨str "Thing", some (str "t"), [⟨⟨str "A", str "", .kint, true⟩, false, []⟩]⟩

/-- Migrator configuration fixture. -/
def c1Conf : MigratorConfig := ⟨.rawSQL, str "out", false⟩

/-- Stub digest standing in for the external md5 call. -/
def md5Stub : Str → Str := fun _ => str "h1"

/-- A snapshot whose stored text equals the newly compiled text but whose
stored hash differs from the stub digest. -/
def c1Snap : modelSnapshot :=
  ⟨str "t", str "h0", (parseModelToSQLWithIndexes c1Model).1,
   (parseModelToSQLWithIndexes c1Model).2⟩

/-- A snapshot whose stored schema text does not match the grammar. -/
def c8Snap : modelSnapshot := ⟨str "t", str "h0", str "garbage", []⟩

/-- A second model with a distinct table name. -/
def c8Other : Model :=
  ⟨str "Other", some (str "u"), [⟨⟨str "B", str "", .kint, true⟩, false, []⟩]⟩

/-- Old column list fixture with one column absent from the new list. -/
def c9OldCols : List columnDef :=
  [⟨str "id", str "INTEGER", [str "NOT", str "NULL"]⟩, ⟨str "gone", str "TEXT", []⟩]

/-- New column list fixture. -/
def c9NewCols : List columnDef :=
  [⟨str "id", str "INTEGER", [str "NOT", str "NULL"]⟩]

/-- The composite index collected from `compModel`. -/
def c6Idx : indexInfo :=
  ⟨str "udx_ab", [str "a", str "b"], true, [(str "a", 2), (str "b", 1)]⟩

/-- An index whose two columns share one priority. -/
def c6IdxEq : indexInfo :=
  ⟨str "i", [str "a", str "b"], false, [(str "a", 0), (str "b", 0)]⟩

/-- Configuration with the keep-dropped-column policy enabled. -/
def c9Conf : MigratorConfig := ⟨.rawSQL, str "out", true⟩

/-- Index definition fixtures with the same column set in different orders. -/
def c5IdxA : indexDef := ⟨str "i", [str "a", str "b"], true, str "t"⟩

/-- Same columns as `c5IdxA` in the other order. -/
def c5IdxB : indexDef := ⟨str "i", [str "b", str "a"], true, str "t"⟩

/-- Same columns as `c5IdxA` with the opposite uniqueness flag. -/
def c5IdxC : indexDef := ⟨str "i", [str "a", str "b"], false, str "t"⟩

/-!
### Theorems

General lemmas first, then one theorem per claim (with witnesses and
counterexamples where applicable).
-/

theorem repAll2_length_le : ∀ s : Str, (repAll2 s).length ≤ s.length
  | [] => le_refl _
  | [_] => le_refl _
  | a :: b :: t => by
    simp only [repAll2]
    split
    · have := repAll2_length_le t
      simp only [List.length_cons]
      omega
    · have := repAll2_length_le (b :: t)
      simp only [List.length_cons] at this ⊢
      omega

theorem repAll2_fix : ∀ s : Str, (repAll2 s).length = s.length →
    repAll2 s = s ∧ noDS s = true
  | [] => fun _ => ⟨rfl, rfl⟩
  | [_] => fun _ => ⟨rfl, rfl⟩
  | a :: b :: t => fun h => by
    by_cases hab : (a = ' ' && b = ' ') = true
    · exfalso
      have hlen := repAll2_length_le t
      rw [repAll2, if_pos hab] at h
      simp only [List.length_cons] at h
      omega
    · rw [repAll2, if_neg hab] at h
      simp only [List.length_cons, Nat.succ.injEq] at h
      obtain ⟨h1, h2⟩ := repAll2_fix (b :: t) h
      constructor
      · rw [repAll2, if_neg hab, h1]
      · simp only [noDS, Bool.and_eq_true]
        exact ⟨by simp [hab], h2⟩

theorem noDS_repAll2_eq : ∀ s : Str, noDS s = true → repAll2 s = s
  | [] => fun _ => rfl
  | [_] => fun _ => rfl
  | a :: b :: t => fun h => by
    simp only [noDS, Bool.and_eq_true, Bool.not_eq_eq_eq_not, Bool.not_true] at h
    rw [repAll2, if_neg (by simp [h.1]), noDS_repAll2_eq (b :: t) h.2]

theorem mem_repAll2 : ∀ s : Str, ∀ x ∈ repAll2 s, x = ' ' ∨ x ∈ s
  | [] => by intro x hx; cases hx
  | [c] => by
    intro x hx
    right
    simpa [repAll2] using hx
  | a :: b :: t => by
    intro x hx
    rw [repAll2] at hx
    split at hx
    · rcases List.mem_cons.mp hx with h | h
      · exact Or.inl h
      · rcases mem_repAll2 t x h with h2 | h2
        · exact Or.inl h2
        · exact Or.inr (by simp [h2])
    · rcases List.mem_cons.mp hx with h | h
      · exact Or.inr (by simp [h])
      · rcases mem_repAll2 (b :: t) x h with h2 | h2
        · exact Or.inl h2
        · exact Or.inr (List.mem_cons_of_mem a h2)

theorem noDS_normLoop : ∀ fuel : Nat, ∀ s : Str, s.length < fuel →
    noDS (normLoop fuel s) = true
  | 0, _, h => absurd h (Nat.not_lt_zero _)
  | fuel + 1, s, h => by
    rw [normLoop]
    split
    · exact ((repAll2_fix s ‹_›).1).symm ▸ (repAll2_fix s ‹_›).2
    · have hle := repAll2_length_le s
      exact noDS_normLoop fuel (repAll2 s) (by omega)

theorem mem_normLoop : ∀ fuel : Nat, ∀ s : Str, ∀ x ∈ normLoop fuel s, x = ' ' ∨ x ∈ s
  | 0, _, x, hx => Or.inr hx
  | fuel + 1, s, x, hx => by
    rw [normLoop] at hx
    split at hx
    · exact mem_repAll2 s x hx
    · rcases mem_normLoop fuel (repAll2 s) x hx with h | h
      · exact Or.inl h
      · exact mem_repAll2 s x h

theorem normLoop_of_noDS (s : Str) (fuel : Nat) (h : noDS s = true) :
    normLoop (fuel + 1) s = s := by
  rw [normLoop, if_pos (by rw [noDS_repAll2_eq s h]), noDS_repAll2_eq s h]

theorem map_fix_of_mem {f : Char → Char} {s : Str} (h : ∀ c ∈ s, f c = c) :
    s.map f = s := by
  induction s with
  | nil => rfl
  | cons a t ih =>
    simp only [List.map_cons, h a (List.mem_cons_self a t),
      ih (fun c hc => h c (List.mem_cons_of_mem a hc))]

/-- Claim C10: the pre-hash whitespace normalization is a total function
(it is defined by structural recursion on an explicit fuel that provably
dominates the loop, so it terminates on every input); its result contains
no tab, no newline, and no two consecutive spaces; and it is idempotent. -/
theorem claim10_normalizeWhitespace_total_clean_idempotent (s : Str) :
    '\t' ∉ normalizeWhitespace s ∧ '\n' ∉ normalizeWhitespace s ∧
    noDS (normalizeWhitespace s) = true ∧
    normalizeWhitespace (normalizeWhitespace s) = normalizeWhitespace s := by
  have hs2 : ∀ x ∈ (s.map (fun c => if c = '\t' then ' ' else c)).map
      (fun c => if c = '\n' then ' ' else c), x ≠ '\t' ∧ x ≠ '\n' := by
    intro x hx
    rcases List.mem_map.mp hx with ⟨y, hy, hfy⟩
    rcases List.mem_map.mp hy with ⟨z, _, hfz⟩
    subst hfy
    subst hfz
    by_cases hzt : z = '\t' <;> by_cases hzn : z = '\n' <;> simp [hzt, hzn]
  set s2 := (s.map (fun c => if c = '\t' then ' ' else c)).map
      (fun c => if c = '\n' then ' ' else c) with hs2def
  have hlen : s2.length = s.length := by simp [hs2def]
  have hfuel : s2.length < s.length + 1 := by omega
  have hnw : normalizeWhitespace s = normLoop (s.length + 1) s2 := rfl
  have hmem : ∀ x ∈ normalizeWhitespace s, x ≠ '\t' ∧ x ≠ '\n' := by
    intro x hx
    rw [hnw] at hx
    rcases mem_normLoop _ _ x hx with h | h
    · subst h; exact ⟨by decide, by decide⟩
    · exact hs2 x h
  refine ⟨fun hx => (hmem _ hx).1 rfl, fun hx => (hmem _ hx).2 rfl, ?_, ?_⟩
  · rw [hnw]; exact noDS_normLoop _ _ hfuel
  · have hnds : noDS (normalizeWhitespace s) = true := by
      rw [hnw]; exact noDS_normLoop _ _ hfuel
    have hid1 : (normalizeWhitespace s).map (fun c => if c = '\t' then ' ' else c) =
        normalizeWhitespace s :=
      map_fix_of_mem (fun c hc => by
        have := (hmem c hc).1
        simp [this])
    show normLoop _ (((normalizeWhitespace s).map _).map _) = _
    rw [hid1]
    have hid2 : (normalizeWhitespace s).map (fun c => if c = '\n' then ' ' else c) =
        normalizeWhitespace s :=
      map_fix_of_mem (fun c hc => by
        have := (hmem c hc).2
        simp [this])
    rw [hid2]
    exact normLoop_of_noDS _ _ hnds

theorem ite_singleton_sublist {c : Prop} [Decidable c] (a : Str) :
    List.Sublist (if c then [a] else []) [a] := by
  split
  · exact List.Sublist.refl _
  · exact List.nil_sublist _

theorem isEmpty_false_of_ne {l : Str} (h : l ≠ []) : l.isEmpty = false := by
  cases l
  · exact absurd rfl h
  · rfl

theorem ne_of_headD {l1 l2 : Str} {a b : Char} (h1 : l1.headD ' ' = a)
    (h2 : l2.headD ' ' = b) (hne : a ≠ b) : l1 ≠ l2 := by
  intro he
  rw [he] at h1
  exact hne (h1.symm.trans h2)

theorem mem_ite_singleton {c : Prop} [Decidable c] {x a : Str}
    (h : x ∈ (if c then [a] else [])) : x = a := by
  split at h
  · exact List.mem_singleton.mp h
  · cases h

/-- Claim C5: the index-definition comparison of the diff engine is
order-insensitive in the columns and exact in the uniqueness flag. -/
theorem claim5_compareIndexDef_order_insensitive (old new : indexDef) :
    (old.isUnique = new.isUnique → old.columns.Perm new.columns →
      compareIndexDef old new = true) ∧
    (old.isUnique ≠ new.isUnique → compareIndexDef old new = false) := by
  constructor
  · intro hu hp
    unfold compareIndexDef
    rw [if_neg (by simp [hu]), if_neg (by simp [hp.length_eq])]
    have hsorted : sortStrings old.columns = sortStrings new.columns := by
      apply List.eq_of_perm_of_sorted
        (((List.perm_insertionSort _ _).trans hp).trans (List.perm_insertionSort _ _).symm)
        (List.sorted_insertionSort _ _) (List.sorted_insertionSort _ _)
    simp [hsorted]
  · intro hu
    unfold compareIndexDef
    rw [if_pos hu]

theorem claim5_witness :
    compareIndexDef c5IdxA c5IdxB = true ∧ compareIndexDef c5IdxA c5IdxC = false :=
  ⟨(claim5_compareIndexDef_order_insensitive c5IdxA c5IdxB).1 (by decide) (by decide),
   (claim5_compareIndexDef_order_insensitive c5IdxA c5IdxC).2 (by decide)⟩

/-- Counterexample to claim C2: a non-pointer column annotated with check,
unique, default and comment renders without NOT NULL (the default
annotation disables the implicit not-null), so the claimed rendering
CHECK (...) UNIQUE NOT NULL DEFAULT ... COMMENT is not produced. -/
theorem claim2_counterexample :
    parseFieldConstraints c2Field =
      [str "CHECK (age > 13)", str "UNIQUE", str "DEFAULT 18", str "COMMENT 'hello'"] ∧
    str "NOT NULL" ∉ parseFieldConstraints c2Field := by
  refine ⟨by decide, by decide⟩

/-- Claim C2 (amended): the constraints of every rendered column appear in
the fixed canonical order auto-increment, check, unique, not-null,
default, comment; and a column annotated with check, unique, default and
comment (and no not-null or auto-increment annotation) renders exactly as
CHECK (...) UNIQUE DEFAULT ... COMMENT, the NOT NULL marker appearing only
when a not-null annotation is present. -/
theorem claim2_constraint_canonical_order :
    (∀ f : BasicField, List.Sublist (parseFieldConstraints f)
      [str "AUTO_INCREMENT",
       str "CHECK (" ++ getTagValue f (str "check") ++ str ")",
       str "UNIQUE", str "NOT NULL",
       str "DEFAULT " ++ getTagValue f (str "default"),
       str "COMMENT '" ++ trimCutL '\'' (getTagValue f (str "comment")) ++ str "'"]) ∧
    (∀ f : BasicField,
      hasTag f (str "unique") = true →
      hasTag f (str "default") = true →
      hasTag f (str "not null") = false →
      hasTag f (str "autoIncrement") = false →
      getTagValue f (str "check") ≠ [] →
      getTagValue f (str "default") ≠ [] →
      getTagValue f (str "comment") ≠ [] →
      parseFieldConstraints f =
        [str "CHECK (" ++ getTagValue f (str "check") ++ str ")", str "UNIQUE",
         str "DEFAULT " ++ getTagValue f (str "default"),
         str "COMMENT '" ++ trimCutL '\'' (getTagValue f (str "comment")) ++ str "'"]) := by
  constructor
  · intro f
    simp only [parseFieldConstraints]
    show List.Sublist ((((_ ++ _) ++ _) ++ _) ++ _ ++ _)
      ((((([_] ++ [_]) ++ [_]) ++ [_]) ++ [_]) ++ [_])
    exact List.Sublist.append
      (List.Sublist.append
        (List.Sublist.append
          (List.Sublist.append
            (List.Sublist.append (ite_singleton_sublist _) (ite_singleton_sublist _))
            (ite_singleton_sublist _))
          (ite_singleton_sublist _))
        (ite_singleton_sublist _))
      (ite_singleton_sublist _)
  · intro f h1 h2 h3 h4 h5 h6 h7
    simp only [parseFieldConstraints, h1, h2, h3, h4,
      isEmpty_false_of_ne h5, isEmpty_false_of_ne h6, isEmpty_false_of_ne h7]
    simp

theorem claim2_witness :
    parseFieldConstraints c2Field =
      [str "CHECK (" ++ getTagValue c2Field (str "check") ++ str ")", str "UNIQUE",
       str "DEFAULT " ++ getTagValue c2Field (str "default"),
       str "COMMENT '" ++ trimCutL '\'' (getTagValue c2Field (str "comment")) ++ str "'"] :=
  claim2_constraint_canonical_order.2 c2Field (by decide) (by decide) (by decide)
    (by decide) (by decide) (by decide) (by decide)

/-- Counterexample to claim C3: a pointer field with a DEFAULT annotation
still receives the NULL type marker, and no NOT NULL constraint is
appended, contradicting the claimed "NULL exactly when no DEFAULT". -/
theorem claim3_counterexample :
    getSQLType c3Field = str "INTEGER NULL" ∧
    getTagValue c3Field (str "default") = str "18" ∧
    str "NOT NULL" ∉ parseFieldConstraints c3Field :=
  ⟨by decide, by decide, by decide⟩

/-- Claim C3 (amended): every pointer-typed non-primary-key field without a
precision annotation receives the NULL type marker unconditionally, and
NOT NULL is additionally appended exactly when a not-null annotation is
present. -/
theorem claim3_pointer_null_marker (f : BasicField) (k : GoKind)
    (hk : f.kind = .kptr k)
    (hpk : hasTag f (str "primaryKey") = false)
    (hprec : getTagValue f (str "precision") = []) :
    (∃ base : Str, getSQLType f = base ++ str " NULL") ∧
    (str "NOT NULL" ∈ parseFieldConstraints f ↔ hasTag f (str "not null") = true) := by
  have hptr : f.kind.isPtr = true := by rw [hk]; rfl
  constructor
  · by_cases htv : (getTagValue f (str "type")).isEmpty = true
    · refine ⟨?_, ?_⟩
      · exact
          match k with
          | .kbool => str "BOOLEAN"
          | .kint => str "INTEGER"
          | .kint32 => str "INTEGER"
          | .kint8 => str "TINYINT"
          | .kint16 => str "SMALLINT"
          | .kint64 => str "BIGINT"
          | .kuint => str "INTEGER UNSIGNED"
          | .kuint8 => str "TINYINT UNSIGNED"
          | .kuint16 => str "SMALLINT UNSIGNED"
          | .kuint32 => str "INTEGER UNSIGNED"
          | .kuint64 => str "BIGINT UNSIGNED"
          | .kfloat32 => str "FLOAT"
          | .kfloat64 => str "DOUBLE"
          | .kstring =>
            if !(getTagValue f (str "size")).isEmpty then
              str "VARCHAR(" ++ getTagValue f (str "size") ++ str ")"
            else str "VARCHAR(255)"
          | .kother tn =>
            if tn = str "time.Time" then str "DATETIME"
            else if tn = str "[]byte" then str "BLOB"
            else str "VARCHAR(255)"
          | .kptr _ => str "VARCHAR(255)"
      · simp only [getSQLType, htv, Bool.not_true, hprec, hk, hpk]
        simp only [List.isEmpty_nil, Bool.not_true, Bool.false_eq_true, if_false]
        cases k <;> simp
    · refine ⟨toUpperL (getTagValue f (str "type")), ?_⟩
      simp only [getSQLType, Bool.not_eq_true] at htv ⊢
      simp [htv, hptr, hpk]
  · cases hnn : hasTag f (str "not null") with
    | true =>
      have hcond : (hasTag f (str "not null") ||
          (!f.kind.isPtr && !hasTag f (str "default"))) = true := by rw [hnn]; rfl
      simp only [parseFieldConstraints, hcond, hnn]
      refine iff_of_true ?_ trivial
      refine List.mem_append.mpr (Or.inl (List.mem_append.mpr (Or.inl
        (List.mem_append.mpr (Or.inr ?_)))))
      simp
    | false =>
      have hcond : (hasTag f (str "not null") ||
          (!f.kind.isPtr && !hasTag f (str "default"))) = false := by
        rw [hnn, hptr]; rfl
      simp only [hnn, Bool.false_eq_true, iff_false]
      intro hmem
      simp only [parseFieldConstraints, hcond, Bool.false_eq_true, if_false,
        List.append_nil] at hmem
      rcases List.mem_append.mp hmem with hmem1 | h5
      rcases List.mem_append.mp hmem1 with hmem2 | h4
      rcases List.mem_append.mp hmem2 with hmem3 | h3
      rcases List.mem_append.mp hmem3 with h1 | h2
      · exact absurd (mem_ite_singleton h1) (by decide)
      · exact absurd (mem_ite_singleton h2) (@ne_of_headD _ _ 'N' 'C' rfl rfl (by decide))
      · exact absurd (mem_ite_singleton h3) (by decide)
      · exact absurd (mem_ite_singleton h4) (@ne_of_headD _ _ 'N' 'D' rfl rfl (by decide))
      · exact absurd (mem_ite_singleton h5) (@ne_of_headD _ _ 'N' 'C' rfl rfl (by decide))

theorem claim3_witness :
    (∃ base : Str, getSQLType c3Field = base ++ str " NULL") ∧
    (str "NOT NULL" ∈ parseFieldConstraints c3Field ↔
      hasTag c3Field (str "not null") = true) :=
  claim3_pointer_null_marker c3Field .kint rfl (by decide) (by decide)

theorem removeDupsAux_nodup : ∀ (l seen : List Str),
    (removeDupsAux seen l).Nodup ∧ ∀ x ∈ removeDupsAux seen l, x ∉ seen
  | [], _ => ⟨List.nodup_nil, fun x hx => absurd hx (List.not_mem_nil x)⟩
  | a :: t, seen => by
    rw [removeDupsAux]
    by_cases hmem : a ∈ seen
    · rw [if_pos hmem]
      exact removeDupsAux_nodup t seen
    · rw [if_neg hmem]
      obtain ⟨ih1, ih2⟩ := removeDupsAux_nodup t (a :: seen)
      constructor
      · exact List.nodup_cons.mpr
          ⟨fun hx => (ih2 a hx) (List.mem_cons_self a seen), ih1⟩
      · intro y hy
        rcases List.mem_cons.mp hy with rfl | h
        · exact hmem
        · exact fun hc => (ih2 y h) (List.mem_cons_of_mem a hc)

theorem mem_removeDupsAux : ∀ (l seen : List Str) (x : Str),
    x ∈ removeDupsAux seen l ↔ x ∈ l ∧ x ∉ seen
  | [], seen, x => by simp [removeDupsAux]
  | a :: t, seen, x => by
    rw [removeDupsAux]
    by_cases hmem : a ∈ seen
    · rw [if_pos hmem, mem_removeDupsAux t seen x]
      constructor
      · exact fun h => ⟨List.mem_cons_of_mem a h.1, h.2⟩
      · rintro ⟨h1, h2⟩
        rcases List.mem_cons.mp h1 with rfl | h
        · exact absurd hmem h2
        · exact ⟨h, h2⟩
    · rw [if_neg hmem]
      constructor
      · intro hx
        rcases List.mem_cons.mp hx with rfl | h
        · exact ⟨List.mem_cons_self x t, hmem⟩
        · obtain ⟨h1, h2⟩ := (mem_removeDupsAux t (a :: seen) x).mp h
          exact ⟨List.mem_cons_of_mem a h1,
            fun hc => h2 (List.mem_cons_of_mem a hc)⟩
      · rintro ⟨h1, h2⟩
        by_cases hxa : x = a
        · exact hxa ▸ List.mem_cons_self a _
        · rcases List.mem_cons.mp h1 with h | h
          · exact absurd h hxa
          · refine List.mem_cons_of_mem a
              ((mem_removeDupsAux t (a :: seen) x).mpr ⟨h, ?_⟩)
            intro hc
            rcases List.mem_cons.mp hc with h3 | h3
            · exact hxa h3
            · exact h2 h3

theorem removeDupsAux_of_nodup : ∀ (l seen : List Str), l.Nodup →
    (∀ x ∈ l, x ∉ seen) → removeDupsAux seen l = l
  | [], _, _, _ => rfl
  | a :: t, seen, hnd, hs => by
    rw [removeDupsAux, if_neg (hs a (List.mem_cons_self a t))]
    rw [removeDupsAux_of_nodup t (a :: seen) (List.nodup_cons.mp hnd).2]
    intro x hx hc
    rcases List.mem_cons.mp hc with rfl | h
    · exact (List.nodup_cons.mp hnd).1 hx
    · exact hs x (List.mem_cons_of_mem a hx) h

theorem removeDuplicates_nodup (l : List Str) : (removeDuplicates l).Nodup :=
  (removeDupsAux_nodup l []).1

theorem mem_removeDuplicates (l : List Str) (x : Str) :
    x ∈ removeDuplicates l ↔ x ∈ l := by
  rw [removeDuplicates, mem_removeDupsAux]
  exact ⟨fun h => h.1, fun h => ⟨h, List.not_mem_nil x⟩⟩

theorem removeDuplicates_idem (l : List Str) :
    removeDuplicates (removeDuplicates l) = removeDuplicates l :=
  removeDupsAux_of_nodup _ [] (removeDuplicates_nodup l)
    (fun x _ hx => absurd hx (List.not_mem_nil x))

theorem map_fst_pairs (idx : indexInfo) :
    (idx.columns.map (fun col => (col, (lookupA idx.priorities col).getD 0))).map
      (fun x => x.1) = idx.columns := by
  induction idx.columns with
  | nil => rfl
  | cons a t ih => simp only [List.map_cons, ih]

/-- Counterexample to claim C7: in `dupModel` two fields contribute the
same column name to one index, and the compiled statement references that
column twice; the compiled model statements do not collapse duplicates. -/
theorem claim7_counterexample :
    (parseModelToSQLWithIndexes dupModel).2 =
      [str "CREATE INDEX i ON `dups` (`c`, `c`);"] ∧
    ((parseModel dupModel).2.2.map (fun e => sortIdxColumns e.2)) =
      [[str "c", str "c"]] ∧
    ¬ ([str "c", str "c"] : List Str).Nodup :=
  ⟨by decide, by decide, by decide⟩

/-- Claim C7 (amended): the rendered index statements of a model are
emitted sorted lexicographically by statement text; duplicate column
references are collapsed in the diff-engine rendering `toSQL` (not in the
compiled model statements): its deduplicated column list contains each
name at most once while preserving the referenced column set, and
rendering is invariant under the collapse. -/
theorem claim7_sorted_statements_and_dedup :
    (∀ m : Model, List.Sorted (· ≤ ·) (parseModelToSQLWithIndexes m).2) ∧
    (∀ l : List Str, (removeDuplicates l).Nodup ∧
      (∀ x, x ∈ removeDuplicates l ↔ x ∈ l)) ∧
    (∀ idx : indexDef,
      toSQL idx = toSQL ⟨idx.name, removeDuplicates idx.columns,
        idx.isUnique, idx.tableName⟩) := by
  refine ⟨?_, ?_, ?_⟩
  · intro m
    show List.Sorted _ (sortStrings _)
    exact List.sorted_insertionSort _ _
  · exact fun l => ⟨removeDuplicates_nodup l, mem_removeDuplicates l⟩
  · intro idx
    simp only [toSQL, removeDuplicates_idem]

theorem claim7_witness :
    List.Sorted (· ≤ ·) (parseModelToSQLWithIndexes dupModel).2 ∧
    (removeDuplicates [str "c", str "c"]).Nodup :=
  ⟨claim7_sorted_statements_and_dedup.1 dupModel,
   (claim7_sorted_statements_and_dedup.2.1 [str "c", str "c"]).1⟩

/-- Claim C6: the composite-index column ordering of the compiler: the
rendered column order is a permutation of the collected columns, sorted by
ascending priority, and stable (columns listed in collection order whose
priorities do not force a swap stay in that order); in the two-field
scenario sharing one uniqueIndex name with priorities 2 and 1, the single
compiled statement is a unique index with the priority-1 column first. -/
theorem claim6_composite_index_priority (idx : indexInfo) :
    (sortIdxColumns idx).Perm idx.columns ∧
    (idx.priorities ≠ [] →
      List.Sorted (fun a b => prioOf idx a ≤ prioOf idx b) (sortIdxColumns idx)) ∧
    (∀ x y : Str, List.Sublist [x, y] idx.columns → prioOf idx x ≤ prioOf idx y →
      List.Sublist [x, y] (sortIdxColumns idx)) ∧
    (parseModelToSQLWithIndexes compModel).2 =
      [str "CREATE UNIQUE INDEX udx_ab ON `comps` (`b`, `a`);"] := by
  refine ⟨?_, ?_, ?_, by decide⟩
  · simp only [sortIdxColumns]
    split
    · refine ((List.perm_insertionSort prioLE
        (idx.columns.map (fun col => (col, (lookupA idx.priorities col).getD 0)))).map
          (fun p : Str × Int => p.1)).trans ?_
      rw [map_fst_pairs]
    · rw [map_fst_pairs]
  · intro hp
    simp only [sortIdxColumns]
    rw [if_pos (by simpa [List.length_pos] using hp)]
    have hsorted := List.sorted_insertionSort prioLE
      (idx.columns.map (fun col => (col, (lookupA idx.priorities col).getD 0)))
    rw [List.Sorted, List.pairwise_map]
    refine hsorted.imp_of_mem ?_
    intro a b ha hb hab
    have hmem : ∀ p ∈ List.insertionSort prioLE
        (idx.columns.map (fun col => (col, (lookupA idx.priorities col).getD 0))),
        p.2 = prioOf idx p.1 := by
      intro p hpmem
      rw [List.mem_insertionSort] at hpmem
      rcases List.mem_map.mp hpmem with ⟨c, _, hc⟩
      subst hc
      rfl
    have h1 := hmem a ha
    have h2 := hmem b hb
    have hab2 : a.2 ≤ b.2 := hab
    rw [← h1, ← h2]
    exact hab2
  · intro x y hxy hle
    simp only [sortIdxColumns]
    split
    · have hle2 : prioLE (x, (lookupA idx.priorities x).getD 0)
          (y, (lookupA idx.priorities y).getD 0) := hle
      have hpairs : List.Sublist
          [(x, (lookupA idx.priorities x).getD 0), (y, (lookupA idx.priorities y).getD 0)]
          (idx.columns.map (fun col => (col, (lookupA idx.priorities col).getD 0))) := by
        have := hxy.map (fun col => (col, (lookupA idx.priorities col).getD 0))
        simpa using this
      have hsub := List.pair_sublist_insertionSort hle2 hpairs
      have hres := hsub.map (fun p : Str × Int => p.1)
      simpa using hres
    · rw [map_fst_pairs]
      exact hxy

theorem claim6_witness :
    List.Sorted (fun a b => prioOf c6Idx a ≤ prioOf c6Idx b) (sortIdxColumns c6Idx) ∧
    List.Sublist [str "a", str "b"] (sortIdxColumns c6IdxEq) :=
  ⟨(claim6_composite_index_priority c6Idx).2.1 (by decide),
   (claim6_composite_index_priority c6IdxEq).2.2.1 (str "a") (str "b")
     (by decide) (by decide)⟩

theorem lookup_mapSet {α : Type} : ∀ (m : List (Str × α)) (k : Str) (v : α) (k2 : Str),
    lookupA (mapSet m k v) k2 = if k = k2 then some v else lookupA m k2
  | [], _, _, _ => rfl
  | (k0, v0) :: t, k, v, k2 => by
    simp only [mapSet]
    split
    · next h0 =>
      subst h0
      simp only [lookupA]
      by_cases h2 : k0 = k2 <;> simp [h2]
    · next h0 =>
      simp only [lookupA]
      by_cases h2 : k0 = k2
      · subst h2
        rw [if_pos rfl, if_neg (fun hc => h0 hc.symm), if_pos rfl]
      · rw [if_neg h2, lookup_mapSet t k v k2, if_neg h2]

theorem mem_mapSet {α : Type} : ∀ (m : List (Str × α)) (k : Str) (v : α)
    (e : Str × α), e ∈ mapSet m k v → e ∈ m ∨ e.1 = k
  | [], k, v, e => by
    intro he
    rcases List.mem_singleton.mp he with rfl
    exact Or.inr rfl
  | (k0, v0) :: t, k, v, e => by
    rw [mapSet]
    split
    · intro he
      rcases List.mem_cons.mp he with rfl | h
      · exact Or.inr ‹k0 = k›
      · exact Or.inl (List.mem_cons_of_mem _ h)
    · intro he
      rcases List.mem_cons.mp he with rfl | h
      · exact Or.inl (List.mem_cons_self _ _)
      · rcases mem_mapSet t k v e h with h2 | h2
        · exact Or.inl (List.mem_cons_of_mem _ h2)
        · exact Or.inr h2

theorem buildColMap_append (l : List columnDef) (c : columnDef) :
    buildColMap (l ++ [c]) = mapSet (buildColMap l) c.name c := by
  simp [buildColMap, List.foldl_append]

theorem keys_buildColMap_sub (l : List columnDef) :
    ∀ e ∈ buildColMap l, e.1 ∈ l.map columnDef.name := by
  induction l using List.reverseRecOn with
  | nil => intro e he; cases he
  | append_singleton l c ih =>
    intro e he
    rw [buildColMap_append] at he
    rcases mem_mapSet _ _ _ _ he with h | h
    · have := ih e h
      simp only [List.map_append, List.mem_append]
      exact Or.inl this
    · simp only [List.map_append, List.mem_append, List.map_cons, List.map_nil,
        List.mem_singleton]
      exact Or.inr (by simp [h])

theorem lookup_buildColMap_filter (p : columnDef → Bool) (k : Str)
    (hp : ∀ c : columnDef, c.name = k → p c = true) :
    ∀ l : List columnDef,
      lookupA (buildColMap (l.filter p)) k = lookupA (buildColMap l) k := by
  intro l
  induction l using List.reverseRecOn with
  | nil => rfl
  | append_singleton l c ih =>
    have hfil : List.filter p (l ++ [c]) =
        if p c = true then List.filter p l ++ [c] else List.filter p l := by
      rw [List.filter_append]
      cases hpc : p c <;> simp [hpc]
    rw [hfil]
    by_cases hc : c.name = k
    · rw [if_pos (hp c hc), buildColMap_append, buildColMap_append,
        lookup_mapSet, lookup_mapSet, if_pos hc, if_pos hc]
    · cases hpc : p c with
      | true =>
        rw [if_pos rfl, buildColMap_append, buildColMap_append,
          lookup_mapSet, lookup_mapSet, if_neg hc, if_neg hc, ih]
      | false =>
        rw [if_neg (by simp), buildColMap_append, lookup_mapSet, if_neg hc, ih]

/-- Claim C9: with the KeepDroppedColumn flag set, old columns absent from
the new schema contribute no operation at all: the diff is unchanged when
they are removed from the old column list beforehand. -/
theorem claim9_keepDroppedColumn_no_ops (conf : MigratorConfig)
    (old new : List columnDef) (hkeep : conf.keepDroppedColumn = true) :
    compareColumns conf old new =
      compareColumns conf
        (old.filter (fun o => decide (o.name ∈ new.map columnDef.name))) new := by
  simp only [compareColumns, hkeep, if_true, List.append_nil]
  apply List.foldl_ext
  intro ops e he
  have hkey : e.1 ∈ new.map columnDef.name := keys_buildColMap_sub new e he
  rw [lookup_buildColMap_filter (fun o => decide (o.name ∈ new.map columnDef.name))
    e.1 (fun c hc => by simp [hc, hkey]) old]

theorem claim9_witness :
    compareColumns c9Conf c9OldCols c9NewCols =
      compareColumns c9Conf
        (c9OldCols.filter (fun o => decide (o.name ∈ c9NewCols.map columnDef.name)))
        c9NewCols :=
  claim9_keepDroppedColumn_no_ops c9Conf c9OldCols c9NewCols (by decide)

/-- Claim C1: for a tracked table whose newly compiled hash differs from
the stored snapshot hash, an empty up-statement list means no migration
file is generated and the snapshot store is left entirely unchanged; the
snapshot is updated (and a file emitted) only when the up-statement list
is nonempty, and then it receives exactly the new hash, schema text and
index texts. -/
theorem claim1_cosmetic_change_absorbed (conf : MigratorConfig)
    (md5Hex : Str → Str) (ts : Str) (snaps : List modelSnapshot) (m : Model)
    (snap : modelSnapshot)
    (hfind : findSnapshot snaps (runModelName m) = some snap)
    (hhash : snap.hash ≠ generateHash md5Hex (parseModelToSQLWithIndexes m).1
      (parseModelToSQLWithIndexes m).2) :
    ((generateAlterStatements conf snaps (runModelName m)
        (parseModelToSQLWithIndexes m).1 (parseModelToSQLWithIndexes m).2).1 = [] →
      processModel conf md5Hex ts snaps m = ([], snaps)) ∧
    (processModel conf md5Hex ts snaps m ≠ ([], snaps) →
      (generateAlterStatements conf snaps (runModelName m)
        (parseModelToSQLWithIndexes m).1 (parseModelToSQLWithIndexes m).2).1 ≠ []) ∧
    ((generateAlterStatements conf snaps (runModelName m)
        (parseModelToSQLWithIndexes m).1 (parseModelToSQLWithIndexes m).2).1 ≠ [] →
      processModel conf md5Hex ts snaps m =
        (generateMigrationFile conf snaps ts (runModelName m)
          (parseModelToSQLWithIndexes m).1 (parseModelToSQLWithIndexes m).2 false,
         replaceSnapshot snaps (runModelName m)
           ⟨runModelName m,
            generateHash md5Hex (parseModelToSQLWithIndexes m).1
              (parseModelToSQLWithIndexes m).2,
            (parseModelToSQLWithIndexes m).1, (parseModelToSQLWithIndexes m).2⟩)) := by
  rcases hsi : parseModelToSQLWithIndexes m with ⟨schema, indexes⟩
  rw [hsi] at hhash
  simp only [hsi]
  have hp1 : (generateAlterStatements conf snaps (runModelName m) schema indexes).1 = [] →
      processModel conf md5Hex ts snaps m = ([], snaps) := by
    intro h
    simp only [processModel, hsi, hfind]
    rw [if_pos hhash, h]
    simp
  refine ⟨hp1, fun hne hempty => hne (hp1 hempty), ?_⟩
  intro h
  simp only [processModel, hsi, hfind]
  rw [if_pos hhash, if_pos (by
    have := List.length_pos.mpr h
    omega)]

theorem claim1_witness :
    processModel c1Conf md5Stub (str "20250101000000") [c1Snap] c1Model =
      ([], [c1Snap]) :=
  (claim1_cosmetic_change_absorbed c1Conf md5Stub (str "20250101000000")
    [c1Snap] c1Model c1Snap (by decide) (by decide)).1 (by decide)

theorem findSnapshot_append : ∀ (s : List modelSnapshot) (v : modelSnapshot) (n : Str),
    findSnapshot (s ++ [v]) n =
      match findSnapshot s n with
      | some x => some x
      | none => if v.name = n then some v else none
  | [], v, n => rfl
  | a :: t, v, n => by
    rw [List.cons_append, findSnapshot, findSnapshot]
    by_cases h : a.name = n
    · rw [if_pos h, if_pos h]
    · rw [if_neg h, if_neg h, findSnapshot_append t v n]

theorem findSnapshot_replace_other : ∀ (s : List modelSnapshot) (nm : Str)
    (v : modelSnapshot) (n : Str), n ≠ nm → v.name = nm →
    findSnapshot (replaceSnapshot s nm v) n = findSnapshot s n
  | [], _, _, _, _, _ => rfl
  | a :: t, nm, v, n, hn, hv => by
    rw [replaceSnapshot]
    by_cases h : a.name = nm
    · rw [if_pos h, findSnapshot, if_neg (fun hc => hn (hc.symm.trans hv)), findSnapshot,
        if_neg (fun hc => hn (hc.symm.trans h))]
    · rw [if_neg h, findSnapshot, findSnapshot]
      by_cases h2 : a.name = n
      · rw [if_pos h2, if_pos h2]
      · rw [if_neg h2, if_neg h2, findSnapshot_replace_other t nm v n hn hv]

theorem findSnapshot_replace_self : ∀ (s : List modelSnapshot) (nm : Str)
    (v : modelSnapshot) (w : modelSnapshot), findSnapshot s nm = some w →
    v.name = nm → findSnapshot (replaceSnapshot s nm v) nm = some v
  | [], _, _, _, h, _ => by cases h
  | a :: t, nm, v, w, h, hv => by
    rw [findSnapshot] at h
    rw [replaceSnapshot]
    by_cases ha : a.name = nm
    · rw [if_pos ha, findSnapshot, if_pos hv]
    · rw [if_neg ha, findSnapshot, if_neg ha]
      rw [if_neg ha] at h
      exact findSnapshot_replace_self t nm v w h hv

theorem findSnapshot_replace_none : ∀ (s : List modelSnapshot) (nm : Str)
    (v : modelSnapshot), findSnapshot s nm = none → replaceSnapshot s nm v = s
  | [], _, _, _ => rfl
  | a :: t, nm, v, h => by
    rw [findSnapshot] at h
    rw [replaceSnapshot]
    by_cases ha : a.name = nm
    · rw [if_pos ha] at h; cases h
    · rw [if_neg ha] at h
      rw [if_neg ha, findSnapshot_replace_none t nm v h]

theorem generateAlterStatements_congr (conf : MigratorConfig)
    (s1 s2 : List modelSnapshot) (nm schema : Str) (idxs : List Str)
    (h : findSnapshot s1 nm = findSnapshot s2 nm) :
    generateAlterStatements conf s1 nm schema idxs =
      generateAlterStatements conf s2 nm schema idxs := by
  simp only [generateAlterStatements, h]

theorem generateMigrationFile_congr (conf : MigratorConfig)
    (s1 s2 : List modelSnapshot) (ts nm schema : Str) (idxs : List Str)
    (isNew : Bool) (h : findSnapshot s1 nm = findSnapshot s2 nm) :
    generateMigrationFile conf s1 ts nm schema idxs isNew =
      generateMigrationFile conf s2 ts nm schema idxs isNew := by
  cases isNew with
  | true => rfl
  | false =>
    simp only [generateMigrationFile,
      generateAlterStatements_congr conf s1 s2 nm schema idxs h]

theorem processModel_files_congr (conf : MigratorConfig) (md5Hex : Str → Str)
    (ts : Str) (s1 s2 : List modelSnapshot) (m : Model)
    (h : findSnapshot s1 (runModelName m) = findSnapshot s2 (runModelName m)) :
    (processModel conf md5Hex ts s1 m).1 = (processModel conf md5Hex ts s2 m).1 := by
  rcases hsi : parseModelToSQLWithIndexes m with ⟨schema, indexes⟩
  simp only [processModel, hsi, h,
    generateAlterStatements_congr conf s1 s2 (runModelName m) schema indexes h,
    generateMigrationFile_congr conf s1 s2 ts (runModelName m) schema indexes true h,
    generateMigrationFile_congr conf s1 s2 ts (runModelName m) schema indexes false h]
  cases hf : findSnapshot s2 (runModelName m) with
  | none => rfl
  | some snap =>
    dsimp only
    split
    · split
      · rfl
      · rfl
    · rfl

theorem processModel_post_agree (conf : MigratorConfig) (md5Hex : Str → Str)
    (ts : Str) (s1 s2 : List modelSnapshot) (m : Model) (n : Str)
    (hnm : findSnapshot s1 (runModelName m) = findSnapshot s2 (runModelName m))
    (hn : findSnapshot s1 n = findSnapshot s2 n) :
    findSnapshot (processModel conf md5Hex ts s1 m).2 n =
      findSnapshot (processModel conf md5Hex ts s2 m).2 n := by
  rcases hsi : parseModelToSQLWithIndexes m with ⟨schema, indexes⟩
  simp only [processModel, hsi, hnm,
    generateAlterStatements_congr conf s1 s2 (runModelName m) schema indexes hnm]
  cases hf : findSnapshot s2 (runModelName m) with
  | none =>
    dsimp only
    rw [findSnapshot_append, findSnapshot_append, hn]
  | some snap =>
    dsimp only
    split
    · split
      · dsimp only
        by_cases hcase : n = runModelName m
        · subst hcase
          rw [findSnapshot_replace_self s1 (runModelName m) _ snap (hnm.trans hf) rfl,
            findSnapshot_replace_self s2 (runModelName m) _ snap hf rfl]
        · rw [findSnapshot_replace_other s1 (runModelName m) _ n hcase rfl,
            findSnapshot_replace_other s2 (runModelName m) _ n hcase rfl, hn]
      · exact hn
    · exact hn

theorem processModel_preserves_other (conf : MigratorConfig) (md5Hex : Str → Str)
    (ts : Str) (s : List modelSnapshot) (m : Model) (n : Str)
    (hne : n ≠ runModelName m) :
    findSnapshot (processModel conf md5Hex ts s m).2 n = findSnapshot s n := by
  rcases hsi : parseModelToSQLWithIndexes m with ⟨schema, indexes⟩
  simp only [processModel, hsi]
  cases hf : findSnapshot s (runModelName m) with
  | none =>
    dsimp only
    rw [findSnapshot_append]
    cases hfn : findSnapshot s n with
    | none =>
      dsimp only
      rw [if_neg (fun hc => hne hc.symm)]
    | some x => rfl
  | some snap =>
    dsimp only
    split
    · split
      · exact findSnapshot_replace_other s (runModelName m) _ n hne rfl
      · rfl
    · rfl

theorem runModels_files_congr (conf : MigratorConfig) (md5Hex : Str → Str)
    (ts : Str) : ∀ (ms : List Model) (s1 s2 : List modelSnapshot),
    (∀ m ∈ ms, findSnapshot s1 (runModelName m) = findSnapshot s2 (runModelName m)) →
    (runModels conf md5Hex ts s1 ms).1 = (runModels conf md5Hex ts s2 ms).1
  | [], _, _, _ => rfl
  | m :: rest, s1, s2, hag => by
    rcases hp1 : processModel conf md5Hex ts s1 m with ⟨files1, post1⟩
    rcases hp2 : processModel conf md5Hex ts s2 m with ⟨files2, post2⟩
    have hfiles : files1 = files2 := by
      have := processModel_files_congr conf md5Hex ts s1 s2 m
        (hag m (List.mem_cons_self m rest))
      rw [hp1, hp2] at this
      exact this
    have hpost : ∀ m2 ∈ rest,
        findSnapshot post1 (runModelName m2) = findSnapshot post2 (runModelName m2) := by
      intro m2 hm2
      have := processModel_post_agree conf md5Hex ts s1 s2 m (runModelName m2)
        (hag m (List.mem_cons_self m rest))
        (hag m2 (List.mem_cons_of_mem m hm2))
      rw [hp1, hp2] at this
      exact this
    have hrest := runModels_files_congr conf md5Hex ts rest post1 post2 hpost
    simp only [runModels, hp1, hp2, hfiles, hrest]

/-- Claim C8: a schema text that fails to parse during diffing yields
exactly one error-comment up statement naming the failing side, confined
to that table; and the run loop is not aborted: the files emitted for
every other table are exactly the ones emitted when the failing table is
absent. -/
theorem claim8_parse_error_local (conf : MigratorConfig) :
    (∀ (snaps : List modelSnapshot) (name schema : Str) (idxs : List Str) (e : Str),
      parseCreateTable schema = .error e →
      generateAlterStatements conf snaps name schema idxs =
        ([str "-- Error parsing new schema: " ++ e], [])) ∧
    (∀ (snaps : List modelSnapshot) (name schema : Str) (idxs : List Str)
        (snap : modelSnapshot) (e : Str),
      (∃ d, parseCreateTable schema = .ok d) →
      findSnapshot snaps name = some snap →
      parseCreateTable snap.schema = .error e →
      generateAlterStatements conf snaps name schema idxs =
        ([str "-- Error parsing old schema: " ++ e], [])) ∧
    (∀ (md5Hex : Str → Str) (ts : Str) (snaps : List modelSnapshot)
        (bad : Model) (rest : List Model),
      runModelName bad ∉ rest.map runModelName →
      (runModels conf md5Hex ts snaps (bad :: rest)).1 =
        (processModel conf md5Hex ts snaps bad).1 ++
          (runModels conf md5Hex ts snaps rest).1) := by
  refine ⟨?_, ?_, ?_⟩
  · intro snaps name schema idxs e he
    simp only [generateAlterStatements, he]
  · rintro snaps name schema idxs snap e ⟨d, hok⟩ hfind herr
    simp only [generateAlterStatements, hok, hfind, herr]
  · intro md5Hex ts snaps bad rest hnotin
    rcases hp : processModel conf md5Hex ts snaps bad with ⟨filesB, postB⟩
    have hag : ∀ m ∈ rest,
        findSnapshot postB (runModelName m) = findSnapshot snaps (runModelName m) := by
      intro m hm
      have hne : runModelName m ≠ runModelName bad := by
        intro hc
        exact hnotin (hc ▸ List.mem_map_of_mem runModelName hm)
      have := processModel_preserves_other conf md5Hex ts snaps bad (runModelName m) hne
      rw [hp] at this
      exact this
    rcases hr : runModels conf md5Hex ts postB rest with ⟨filesR, postR⟩
    have hcong := runModels_files_congr conf md5Hex ts rest postB snaps hag
    rw [hr] at hcong
    simp only [runModels, hp, hr]
    rw [← hcong]

theorem claim8_witness :
    generateAlterStatements c1Conf [c8Snap] (str "t")
      (parseModelToSQLWithIndexes c1Model).1 (parseModelToSQLWithIndexes c1Model).2 =
      ([str "-- Error parsing old schema: " ++ str "invalid CREATE TABLE syntax"], []) ∧
    (runModels c1Conf md5Stub (str "20250101") [c8Snap] [c1Model, c8Other]).1 =
      (processModel c1Conf md5Stub (str "20250101") [c8Snap] c1Model).1 ++
        (runModels c1Conf md5Stub (str "20250101") [c8Snap] [c8Other]).1 :=
  ⟨(claim8_parse_error_local c1Conf).2.1 [c8Snap] (str "t")
      (parseModelToSQLWithIndexes c1Model).1 (parseModelToSQLWithIndexes c1Model).2
      c8Snap (str "invalid CREATE TABLE syntax")
      ⟨⟨str "t", [⟨str "a", str "INTEGER", [str "NOT", str "NULL"]⟩], []⟩, rfl⟩
      (by decide) rfl,
   (claim8_parse_error_local c1Conf).2.2 md5Stub (str "20250101") [c8Snap]
      c1Model [c8Other] (by decide)⟩

/-- Counterexample to claim C4: re-parsing the compiled text of a
single-field primary-key model yields constraint list ["NOT", "NULL"]
whereas the producing column definition carries ["NOT NULL"]; the
grammar re-tokenizes on whitespace, so the column lists are not equal. -/
theorem claim4_counterexample :
    parseCreateTable (parseModelToSQLWithIndexes c4Model).1 =
      .ok ⟨str "items", [⟨str "id", str "INTEGER", [str "NOT", str "NULL"]⟩], []⟩ ∧
    parseModelDefs c4Model = [⟨str "id", str "INTEGER", [str "NOT NULL"]⟩] ∧
    ([str "NOT", str "NULL"] : List Str) ≠ [str "NOT NULL"] :=
  ⟨rfl, by decide, by decide⟩

theorem parseField_eq_renderDef (f : BasicField) (h : ignoredField f = false) :
    parseField f = renderDef (parseFieldDef f) := by
  have h2 : ¬(getTagValue f (str "-") = str "all" ∨ getTagValue f (str "-") = str "migration") := by
    intro hc
    simp only [ignoredField, Bool.or_eq_false_iff, decide_eq_false_iff_not] at h
    rcases hc with hc | hc
    · exact h.1 hc
    · exact h.2 hc
  simp only [parseField, renderDef, parseFieldDef, defBody]
  rw [if_neg (by simpa using h2)]
  split
  · simp only [List.append_assoc]
  · simp

theorem renderDef_ne_nil (d : producedColumn) : renderDef d ≠ [] := by
  simp only [renderDef]
  intro h
  have := congrArg List.length h
  simp [str] at this

theorem parseField_empty_of_ignored (f : BasicField) (h : ignoredField f = true) :
    parseField f = [] := by
  simp only [ignoredField, Bool.or_eq_true, decide_eq_true_eq] at h
  simp only [parseField]
  rw [if_pos (by simpa using h)]

theorem foldl_append_concat {α β : Type} (g : α → List β) :
    ∀ (l : List α) (acc : List β),
      l.foldl (fun a x => a ++ g x) acc = acc ++ (l.map g).flatten
  | [], acc => by simp
  | x :: t, acc => by
    simp only [List.foldl_cons, List.map_cons, List.flatten_cons]
    rw [foldl_append_concat g t (acc ++ g x)]
    simp [List.append_assoc]

theorem parseEmbeddedField_concat (subFields : List BasicField) (embPfx : Str) :
    parseEmbeddedField subFields embPfx =
      (subFields.map (subColContrib embPfx)).flatten := by
  rw [parseEmbeddedField]
  rw [List.foldl_ext _ (fun (a : List Str) (f : BasicField) => a ++ subColContrib embPfx f)
    [] ?_]
  · exact foldl_append_concat _ subFields []
  · intro cols f _
    simp only [subColContrib]
    split
    · simp
    · split
      · simp
      · split
        · rfl
        · rfl

theorem embeddedDefs_concat (subFields : List BasicField) (embPfx : Str) :
    embeddedDefs subFields embPfx =
      (subFields.map (subDefContrib embPfx)).flatten := by
  rw [embeddedDefs]
  rw [List.foldl_ext _
    (fun (a : List producedColumn) (f : BasicField) => a ++ subDefContrib embPfx f) [] ?_]
  · exact foldl_append_concat _ subFields []
  · intro cols f _
    simp only [subDefContrib]
    split
    · simp
    · split
      · simp
      · rfl


theorem pmStep_fold_fst :
    ∀ (fields : List MField) (cols : List Str) (idx : List (Str × indexInfo)),
    (fields.foldl pmStep (cols, idx)).1 = cols ++ (fields.map colContrib).flatten
  | [], _, _ => by simp
  | mf :: fs, cols, idx => by
    rw [List.foldl_cons]
    show (fs.foldl pmStep (cols ++ colContrib mf, idxContrib idx mf)).1 = _
    rw [pmStep_fold_fst fs (cols ++ colContrib mf) (idxContrib idx mf)]
    simp [List.append_assoc]

theorem parseModel_cols_concat (m : Model) :
    (parseModel m).2.1 = (m.fields.map colContrib).flatten := by
  show (m.fields.foldl _ (([] : List Str), ([] : List (Str × indexInfo)))).1 = _
  rw [List.foldl_ext _ pmStep (([] : List Str), ([] : List (Str × indexInfo))) ?_]
  · exact pmStep_fold_fst m.fields [] []
  · intro acc mf _
    rcases acc with ⟨c, i⟩
    simp only [pmStep, colContrib, idxContrib]
    cases hexp : mf.base.exported with
    | false => simp [hexp]
    | true =>
      by_cases hemb : (mf.anonymous || hasTag mf.base (str "embedded")) = true
      · simp [hexp, hemb]
      · by_cases hpe : (parseField mf.base).isEmpty = true
        · simp [hexp, hemb, hpe]
        · simp [hexp, hemb, hpe]

theorem parseModelDefs_concat (m : Model) :
    parseModelDefs m = (m.fields.map defContrib).flatten := by
  rw [parseModelDefs]
  rw [List.foldl_ext _
    (fun (a : List producedColumn) (mf : MField) => a ++ defContrib mf) [] ?_]
  · exact foldl_append_concat _ m.fields []
  · intro cols mf _
    simp only [defContrib]
    split
    · simp
    · split
      · rfl
      · split
        · simp
        · rfl

theorem wordChar_facts (c : Char) (h : isWordChar c = true) :
    c ≠ ' ' ∧ c ≠ bq ∧ c ≠ '(' ∧ c ≠ ')' ∧ c ≠ ',' ∧ c ≠ '\n' := by
  refine ⟨?_, ?_, ?_, ?_, ?_, ?_⟩ <;> rintro rfl <;> revert h <;> decide

theorem takeWhileAppendAll {p : Char → Bool} :
    ∀ (l1 l2 : Str), (∀ c ∈ l1, p c = true) →
      (l1 ++ l2).takeWhile p = l1 ++ l2.takeWhile p
  | [], _, _ => rfl
  | c :: t, l2, h => by
    have hc : p c = true := h c (by simp)
    simp only [List.cons_append, List.takeWhile_cons, hc, if_true]
    rw [takeWhileAppendAll t l2 (fun d hd => h d (by simp [hd]))]

theorem takeWhile_cons_false {p : Char → Bool} (c : Char) (t : Str) (h : p c = false) :
    (c :: t).takeWhile p = [] := by
  simp [List.takeWhile_cons, h]

theorem splitN2_renderDef (d : producedColumn) (hn : d.name.all isWordChar = true) :
    splitN2 ' ' (renderDef d) = [str "`" ++ d.name ++ str "`", defBody d] := by
  have hq : renderDef d = (str "`" ++ d.name ++ str "`") ++ (' ' :: defBody d) := by
    simp [renderDef, str, List.append_assoc]
  have hall : ∀ c ∈ str "`" ++ d.name ++ str "`", (fun x => decide ¬(x = ' ')) c = true := by
    intro c hc
    rcases List.mem_append.mp hc with hc1 | hc2
    · rcases List.mem_append.mp hc1 with hc3 | hc4
      · rw [show (str "`") = [bq] from rfl, List.mem_singleton] at hc3
        subst hc3
        decide
      · have := (wordChar_facts c (by
          have := List.all_eq_true.mp hn c hc4
          simpa using this)).1
        simpa using this
    · rw [show (str "`") = [bq] from rfl, List.mem_singleton] at hc2
      subst hc2
      decide
  have htw : (renderDef d).takeWhile (fun x => decide ¬(x = ' ')) =
      str "`" ++ d.name ++ str "`" := by
    rw [hq, takeWhileAppendAll _ _ hall, takeWhile_cons_false _ _ (by decide)]
    simp
  have hlen : (str "`" ++ d.name ++ str "`").length ≠ (renderDef d).length := by
    rw [hq]
    simp only [List.length_append, List.length_cons]
    omega
  simp only [splitN2]
  rw [show ((· ≠ ' ') : Char → Bool) = (fun x => decide ¬(x = ' ')) from rfl, htw]
  rw [if_neg hlen]
  have hdrop : (renderDef d).drop ((str "`" ++ d.name ++ str "`").length + 1) = defBody d := by
    rw [hq, List.drop_append]
    rfl
  rw [hdrop]

theorem trimCut_wrap (c : Char) (m : Str) (h : ∀ x ∈ m, ¬(x = c)) :
    trimCutL c ([c] ++ m ++ [c]) = m := by
  cases m with
  | nil =>
    simp [trimCutL]
  | cons a t =>
    have ha : ¬(a = c) := h a (by simp)
    have h1 : (([c] ++ (a :: t) ++ [c]).dropWhile (· = c)) = (a :: t) ++ [c] := by
      show ((c :: ((a :: t) ++ [c])).dropWhile (· = c)) = _
      rw [List.dropWhile_cons]
      simp [ha]
    simp only [trimCutL, h1]
    rcases hr : (a :: t).reverse with _ | ⟨b, rb⟩
    · exact absurd hr (by simp)
    · have hb : b ∈ a :: t := by
        have h0 : b ∈ (a :: t).reverse := by rw [hr]; simp
        exact List.mem_reverse.mp h0
      have hbne : ¬(b = c) := h b hb
      rw [List.reverse_append, show ([c] : Str).reverse = [c] from rfl, hr]
      show (((c :: b :: rb).dropWhile (· = c))).reverse = a :: t
      rw [List.dropWhile_cons, if_pos (by simp), List.dropWhile_cons,
        if_neg (by simp [hbne]), ← hr, List.reverse_reverse]

theorem trimCut_quoted (name : Str) (hn : name.all isWordChar = true) :
    trimCutL bq (str "`" ++ name ++ str "`") = name := by
  have h : ∀ x ∈ name, ¬(x = bq) := by
    intro x hx
    exact (wordChar_facts x (by simpa using List.all_eq_true.mp hn x hx)).2.1
  have := trimCut_wrap bq name h
  simpa using this

theorem subColContrib_eq (embPfx : Str) (f : BasicField)
    (h : f.exported = true → ignoredField f = false →
      ((prefixedDef embPfx (parseFieldDef f)).name.all isWordChar) = true) :
    subColContrib embPfx f = (subDefContrib embPfx f).map renderDef := by
  cases hexp : f.exported with
  | false => simp [subColContrib, subDefContrib, hexp]
  | true =>
    by_cases hign : ignoredField f = true
    · have hpf : parseField f = [] := parseField_empty_of_ignored _ hign
      simp [subColContrib, subDefContrib, hexp, hign, hpf]
    · have hign2 : ignoredField f = false := by simpa using hign
      have hpf : parseField f = renderDef (parseFieldDef f) :=
        parseField_eq_renderDef _ hign2
      have hne : (parseField f).isEmpty = false := by
        rw [hpf]; exact isEmpty_false_of_ne (renderDef_ne_nil _)
      have hrne := renderDef_ne_nil (parseFieldDef f)
      by_cases hpe : embPfx.isEmpty = true
      · simp [subColContrib, subDefContrib, hexp, hign2, hne, hpe, prefixedDef, hpf, hrne]
      · have hn : (embPfx ++ (parseFieldDef f).name).all isWordChar = true := by
          have h2 := h hexp hign2
          simpa [prefixedDef, hpe] using h2
        have hnn : (parseFieldDef f).name.all isWordChar = true := by
          simp [List.all_append] at hn
          exact List.all_eq_true.mpr hn.2
        have hstep1 : subColContrib embPfx f =
            [str "`" ++ embPfx ++ trimCutL bq ((splitN2 ' ' (parseField f)).headD []) ++
              str "` " ++ (splitN2 ' ' (parseField f)).getD 1 []] := by
          simp [subColContrib, hexp, hne, hpe]
        have hstep2 : (subDefContrib embPfx f).map renderDef =
            [renderDef { parseFieldDef f with name := embPfx ++ (parseFieldDef f).name }] := by
          simp [subDefContrib, hexp, hign2, prefixedDef, hpe]
        rw [hstep1, hstep2, hpf, splitN2_renderDef _ hnn]
        simp only [List.headD_cons, List.getD_cons_succ, List.getD_cons_zero]
        rw [trimCut_quoted _ hnn]
        simp [renderDef, defBody, List.append_assoc]

theorem mem_embeddedDefs (subs : List BasicField) (pfx : Str) (f : BasicField)
    (hf : f ∈ subs) (h1 : f.exported = true) (h2 : ignoredField f = false) :
    prefixedDef pfx (parseFieldDef f) ∈ embeddedDefs subs pfx := by
  rw [embeddedDefs_concat]
  refine List.mem_flatten.mpr ⟨subDefContrib pfx f, List.mem_map_of_mem _ hf, ?_⟩
  simp [subDefContrib, h1, h2]

theorem parseEmbeddedField_eq (subs : List BasicField) (pfx : Str)
    (h : ∀ f ∈ subs, f.exported = true → ignoredField f = false →
      ((prefixedDef pfx (parseFieldDef f)).name.all isWordChar) = true) :
    parseEmbeddedField subs pfx = (embeddedDefs subs pfx).map renderDef := by
  rw [parseEmbeddedField_concat, embeddedDefs_concat, List.map_flatten, List.map_map]
  congr 1
  apply List.map_congr_left
  intro f hf
  simpa [Function.comp] using subColContrib_eq pfx f (h f hf)

theorem colContrib_eq (mf : MField)
    (h : ∀ d ∈ defContrib mf, d.name.all isWordChar = true) :
    colContrib mf = (defContrib mf).map renderDef := by
  cases hexp : mf.base.exported with
  | false => simp [colContrib, defContrib, hexp]
  | true =>
    by_cases hemb : (mf.anonymous || hasTag mf.base (str "embedded")) = true
    · have h2 : ∀ f ∈ mf.subFields, f.exported = true → ignoredField f = false →
          ((prefixedDef (getTagValue mf.base (str "embeddedPrefix"))
            (parseFieldDef f)).name.all isWordChar) = true := by
        intro f hf h1 h2
        apply h
        simp only [defContrib, hexp, Bool.not_true, Bool.false_eq_true, if_false, hemb,
          if_true]
        exact mem_embeddedDefs _ _ f hf h1 h2
      simp only [colContrib, defContrib, hexp, Bool.not_true, Bool.false_eq_true,
        if_false, hemb, if_true]
      exact parseEmbeddedField_eq _ _ h2
    · by_cases hign : ignoredField mf.base = true
      · have hpf : parseField mf.base = [] := parseField_empty_of_ignored _ hign
        simp [colContrib, defContrib, hexp, hemb, hign, hpf]
      · have hign2 : ignoredField mf.base = false := by simpa using hign
        have hpf : parseField mf.base = renderDef (parseFieldDef mf.base) :=
          parseField_eq_renderDef _ hign2
        have hne : (parseField mf.base).isEmpty = false := by
          rw [hpf]; exact isEmpty_false_of_ne (renderDef_ne_nil _)
        have hrne := renderDef_ne_nil (parseFieldDef mf.base)
        simp [colContrib, defContrib, hexp, hemb, hign2, hne, hpf, hrne]

theorem parseModel_cols_render (m : Model)
    (h : ∀ d ∈ parseModelDefs m, d.name.all isWordChar = true) :
    (parseModel m).2.1 = (parseModelDefs m).map renderDef := by
  rw [parseModel_cols_concat, parseModelDefs_concat, List.map_flatten, List.map_map]
  congr 1
  apply List.map_congr_left
  intro mf hmf
  have h2 : ∀ d ∈ defContrib mf, d.name.all isWordChar = true := by
    intro d hd
    apply h
    rw [parseModelDefs_concat]
    exact List.mem_flatten.mpr ⟨defContrib mf, List.mem_map_of_mem _ hmf, hd⟩
  simpa [Function.comp] using colContrib_eq mf h2

theorem hasPfx_refl_append : ∀ (p s : Str), hasPfx p (p ++ s) = true
  | [], _ => rfl
  | c :: t, s => by simp [hasPfx, hasPfx_refl_append t s]

theorem stripPfx_append : ∀ (p s : Str), stripPfx p (p ++ s) = some s
  | [], _ => rfl
  | c :: t, s => by simp [stripPfx, stripPfx_append t s]

theorem revDropKeep (s : Str) (h : isGoSpace (s.reverse.headD 'x') = false) :
    ((s.reverse.dropWhile isGoSpace)).reverse = s := by
  rcases hr : s.reverse with _ | ⟨d, rt⟩
  · have hs : s = [] := List.reverse_eq_nil_iff.mp hr
    subst hs
    simp
  · rw [hr] at h
    simp only [List.headD_cons] at h
    rw [List.dropWhile_cons, if_neg (by simp [h]), ← hr, List.reverse_reverse]

theorem trimSpace_id_cons (c : Char) (t : Str) (h1 : isGoSpace c = false)
    (h2 : isGoSpace ((c :: t).reverse.headD 'x') = false) :
    trimSpaceL (c :: t) = c :: t := by
  simp only [trimSpaceL]
  rw [List.dropWhile_cons, if_neg (by simp [h1])]
  exact revDropKeep (c :: t) h2

theorem trimSpace_pad2 (c : Char) (t : Str) (h1 : isGoSpace c = false)
    (h2 : isGoSpace ((c :: t).reverse.headD 'x') = false) :
    trimSpaceL (str "  " ++ (c :: t)) = c :: t := by
  simp only [trimSpaceL]
  rw [show str "  " ++ (c :: t) = ' ' :: ' ' :: c :: t from rfl]
  rw [List.dropWhile_cons, if_pos (by decide), List.dropWhile_cons, if_pos (by decide),
    List.dropWhile_cons, if_neg (by simp [h1])]
  exact revDropKeep (c :: t) h2

theorem parenFold_shift :
    ∀ (l : Str) (n : Int),
      l.foldl (fun n c => if c = '(' then n + 1 else if c = ')' then n - 1 else n) n =
        n + parenDelta l
  | [], n => by simp [parenDelta]
  | c :: t, n => by
    simp only [List.foldl_cons, parenDelta]
    rw [parenFold_shift t, parenFold_shift t]
    by_cases h1 : c = '('
    · subst h1
      rw [if_pos rfl, if_pos rfl]
      omega
    · by_cases h2 : c = ')'
      · subst h2
        rw [if_neg (by decide : ¬(')' = '(')), if_neg (by decide : ¬(')' = '(')),
          if_pos rfl, if_pos rfl]
        omega
      · rw [if_neg h1, if_neg h1, if_neg h2, if_neg h2]
        omega

theorem parenDelta_append (a b : Str) : parenDelta (a ++ b) = parenDelta a + parenDelta b := by
  simp only [parenDelta, List.foldl_append]
  rw [parenFold_shift b]
  rfl

theorem parenDelta_word : ∀ (s : Str), s.all isWordChar = true → parenDelta s = 0
  | [], _ => rfl
  | c :: t, h => by
    have hc : isWordChar c = true := by
      simp [List.all_cons] at h
      exact h.1
    have ht : t.all isWordChar = true := by
      simp [List.all_cons] at h
      exact List.all_eq_true.mpr h.2
    have hp1 := (wordChar_facts c hc).2.2.1
    have hp2 := (wordChar_facts c hc).2.2.2.1
    simp only [parenDelta, List.foldl_cons, if_neg hp1, if_neg hp2]
    rw [parenFold_shift t 0, show parenDelta t = 0 from parenDelta_word t ht]
    omega

theorem hasSfx_append_self (p s : Str) : hasSfx p (s ++ p) = true := by
  simp only [hasSfx, List.reverse_append]
  exact hasPfx_refl_append _ _

theorem trimSfx_append_self (p s : Str) : trimSfxL p (s ++ p) = s := by
  simp only [trimSfxL, hasSfx_append_self, if_true]
  rw [List.reverse_append,
    show p.length = p.reverse.length from (List.length_reverse p).symm,
    List.drop_left, List.reverse_reverse]

theorem trimSfx_no (p s : Str) (h : hasSfx p s = false) : trimSfxL p s = s := by
  simp [trimSfxL, h]

theorem hasPfx_single_false (c d : Char) (t : Str) (h : ¬(c = d)) :
    hasPfx [c] (d :: t) = false := by
  simp [hasPfx, h]

theorem hasSfx_comma_pkLine (pk : Str) : hasSfx (str ",") (pkLine pk) = false := by
  show hasPfx (str ",").reverse (pkLine pk).reverse = false
  rw [show pkLine pk = (str "PRIMARY KEY (`" ++ pk) ++ str "`)" from rfl,
    List.reverse_append,
    show (str "`)").reverse = ')' :: [bq] from rfl,
    show (str ",").reverse = [','] from rfl]
  exact hasPfx_single_false ',' ')' _ (by decide)

theorem fieldsAux_through :
    ∀ (tok cur rest : Str), (∀ c ∈ tok, isGoSpace c = false) →
      fieldsAux cur (tok ++ rest) = fieldsAux (tok.reverse ++ cur) rest
  | [], cur, rest, _ => by simp
  | c :: t, cur, rest, h => by
    have hc : isGoSpace c = false := h c (by simp)
    show fieldsAux cur (c :: (t ++ rest)) = _
    rw [show fieldsAux cur (c :: (t ++ rest)) = fieldsAux (c :: cur) (t ++ rest) from by
      simp [fieldsAux, hc]]
    rw [fieldsAux_through t (c :: cur) rest (fun d hd => h d (by simp [hd]))]
    simp [List.append_assoc]

theorem isGoSpace_space : isGoSpace ' ' = true := by decide

theorem fieldsL_sep_cons (tok body : Str) (h : ∀ c ∈ tok, isGoSpace c = false)
    (hne : tok ≠ []) :
    fieldsL (tok ++ ' ' :: body) = tok :: fieldsL body := by
  show fieldsAux [] (tok ++ ' ' :: body) = tok :: fieldsAux [] body
  rw [fieldsAux_through tok [] (' ' :: body) h]
  have h4 : tok.reverse ++ ([] : Str) = tok.reverse := by simp
  rw [h4]
  have h5 : tok.reverse.isEmpty = false := isEmpty_false_of_ne (by simp [hne])
  simp [fieldsAux, isGoSpace_space, h5]

theorem fieldsL_single (tok : Str) (h : ∀ c ∈ tok, isGoSpace c = false) (hne : tok ≠ []) :
    fieldsL tok = [tok] := by
  show fieldsAux [] tok = [tok]
  have h1 := fieldsAux_through tok [] [] h
  simp only [List.append_nil] at h1
  rw [h1]
  have hrne : tok.reverse ≠ [] := by simp [hne]
  simp [fieldsAux, isEmpty_false_of_ne hrne]

theorem splitCharL_ne_nil (c : Char) : ∀ (s : Str), splitCharL c s ≠ []
  | [] => by simp [splitCharL]
  | x :: t => by
    simp only [splitCharL]
    split
    · simp
    · split <;> simp

theorem splitChar_sep_cons (c : Char) (t : Str) :
    splitCharL c (c :: t) = [] :: splitCharL c t := by
  simp [splitCharL]

theorem splitChar_prepend (c : Char) :
    ∀ (l1 l2 : Str), (∀ x ∈ l1, ¬(x = c)) →
      splitCharL c (l1 ++ l2) =
        (l1 ++ (splitCharL c l2).headD []) :: (splitCharL c l2).tail
  | [], l2, _ => by
    rcases hsc : splitCharL c l2 with _ | ⟨a, b⟩
    · exact absurd hsc (splitCharL_ne_nil c l2)
    · simp [hsc]
  | x :: l1, l2, h => by
    have hx : ¬(x = c) := h x (by simp)
    show splitCharL c (x :: (l1 ++ l2)) = _
    simp only [splitCharL]
    rw [if_neg hx]
    rw [splitChar_prepend c l1 l2 (fun d hd => h d (by simp [hd]))]
    simp

theorem splitChar_buildLines :
    ∀ (cols : List Str), cols ≠ [] → (∀ s ∈ cols, ∀ ch ∈ s, ¬(ch = '\n')) →
      splitCharL '\n' (str "  " ++ joinSepL (str ",\n  ") cols ++ str "\n") =
        buildLines cols
  | [], hne, _ => absurd rfl hne
  | [c], _, h => by
    have hno : ∀ x ∈ str "  " ++ c, ¬(x = '\n') := by
      intro x hx
      rcases List.mem_append.mp hx with hx1 | hx2
      · rw [show str "  " = [' ', ' '] from rfl] at hx1
        simp only [List.mem_cons, List.not_mem_nil, or_false] at hx1
        rcases hx1 with rfl | rfl <;> decide
      · exact h c (by simp) x hx2
    show splitCharL '\n' ((str "  " ++ joinSepL (str ",\n  ") [c]) ++ str "\n") = _
    rw [show joinSepL (str ",\n  ") [c] = c from rfl,
      show (str "\n") = '\n' :: ([] : Str) from rfl,
      splitChar_prepend '\n' (str "  " ++ c) ('\n' :: []) hno]
    rw [show splitCharL '\n' ('\n' :: []) = [[], []] from rfl]
    simp [buildLines]
  | c :: c2 :: rest, _, h => by
    have hno : ∀ x ∈ str "  " ++ c ++ str ",", ¬(x = '\n') := by
      intro x hx
      rcases List.mem_append.mp hx with hx1 | hx2
      · rcases List.mem_append.mp hx1 with hx3 | hx4
        · rw [show str "  " = [' ', ' '] from rfl] at hx3
          simp only [List.mem_cons, List.not_mem_nil, or_false] at hx3
          rcases hx3 with rfl | rfl <;> decide
        · exact h c (by simp) x hx4
      · rw [show str "," = [','] from rfl, List.mem_singleton] at hx2
        subst hx2
        decide
    have hrec := splitChar_buildLines (c2 :: rest) (by simp)
      (fun s hs => h s (by simp at hs ⊢; tauto))
    rw [show str "  " ++ joinSepL (str ",\n  ") (c :: c2 :: rest) ++ str "\n" =
        (str "  " ++ c ++ str ",") ++
          '\n' :: (str "  " ++ joinSepL (str ",\n  ") (c2 :: rest) ++ str "\n") from by
      rw [show joinSepL (str ",\n  ") (c :: c2 :: rest) =
        c ++ str ",\n  " ++ joinSepL (str ",\n  ") (c2 :: rest) from rfl]
      simp [str, List.append_assoc]]
    rw [splitChar_prepend '\n' _ _ hno, splitChar_sep_cons, hrec]
    rw [show buildLines (c :: c2 :: rest) =
      (str "  " ++ c ++ str ",") :: buildLines (c2 :: rest) from rfl]
    rcases hb : buildLines (c2 :: rest) with _ | ⟨b0, bt⟩
    · cases c2 <;> cases rest <;> simp [buildLines] at hb
    · simp

theorem wordChar_nonspace (c : Char) (h : isWordChar c = true) : isGoSpace c = false := by
  cases hgs : isGoSpace c with
  | false => rfl
  | true =>
    exfalso
    simp [isGoSpace] at hgs
    rcases hgs with (((((rfl | rfl) | rfl) | rfl) | rfl) | rfl) <;> revert h <;> decide

theorem firstMatchPos_refl (c : Char) (t s : Str) :
    firstMatchPos (c :: t) ((c :: t) ++ s) = some 0 := by
  show firstMatchPos (c :: t) (c :: (t ++ s)) = some 0
  simp only [firstMatchPos]
  rw [if_pos (show hasPfx (c :: t) (c :: (t ++ s)) = true from hasPfx_refl_append (c :: t) s)]

theorem matchCreateAt_render (T C : Str) (hT : T ≠ []) (hTw : T.all isWordChar = true)
    (hC : C ≠ []) :
    matchCreateAt (str "CREATE TABLE `" ++ (T ++ (str "` (" ++ (C ++ str ");")))) =
      some (T, C) := by
  have hallT : ∀ c ∈ T, (fun c => c.isAlphanum || decide (c = '_')) c = true := by
    intro c hc
    exact List.all_eq_true.mp hTw c hc
  have hTe : T.isEmpty = false := isEmpty_false_of_ne hT
  have hCe : C.isEmpty = false := isEmpty_false_of_ne hC
  simp only [matchCreateAt]
  rw [stripPfx_append]
  dsimp only
  rw [takeWhileAppendAll T _ hallT,
    show str "` (" ++ (C ++ str ");") = bq :: (str " (" ++ (C ++ str ");")) from rfl,
    takeWhile_cons_false _ _ (by decide), List.append_nil]
  rw [if_neg (by rw [hTe]; simp)]
  rw [List.drop_left]
  rw [show (bq :: (str " (" ++ (C ++ str ");"))) = str "` (" ++ (C ++ str ");") from rfl,
    stripPfx_append]
  dsimp only
  rw [List.reverse_append, show (str ");").reverse = ';' :: [')'] from rfl,
    firstMatchPos_refl ';' [')'] C.reverse]
  dsimp only
  rw [show (((';' :: [')']) ++ C.reverse).drop (0 + 2)) = C.reverse from rfl,
    List.reverse_reverse]
  rw [if_neg (by rw [hCe]; simp)]

theorem wf_unpack (d : producedColumn) (h : wfProducedCol d = true) :
    d.name ≠ [] ∧ d.name.all isWordChar = true ∧ fieldsL (defBody d) ≠ [] ∧
    (∀ ch ∈ defBody d, ¬(ch = '\n')) ∧ parenDelta (defBody d) = 0 ∧
    isGoSpace ((defBody d).reverse.headD bq) = false := by
  simp only [wfProducedCol, Bool.and_eq_true] at h
  obtain ⟨⟨⟨⟨⟨h1, h2⟩, h3⟩, h4⟩, h5⟩, h6⟩ := h
  refine ⟨?_, ?_, ?_, ?_, ?_, ?_⟩
  · intro he
    rw [he] at h1
    simp at h1
  · exact h2
  · intro he
    rw [he] at h3
    simp at h3
  · intro ch hch he
    subst he
    have := List.all_eq_true.mp h4 '\n' hch
    simp at this
  · have := beq_iff_eq.mp h5
    exact this
  · cases hgs : isGoSpace ((defBody d).reverse.headD bq) with
    | false => rfl
    | true =>
      rw [hgs] at h6
      simp at h6

theorem processLine_empty (CS : Str) (st : ParseSt) : processLine CS st [] = st := by
  simp [processLine, trimSpaceL]

theorem trimSpace_pad2_of (s : Str) (h1 : isGoSpace (s.headD 'x') = false)
    (h2 : isGoSpace (s.reverse.headD 'x') = false) (hs : s ≠ []) :
    trimSpaceL (str "  " ++ s) = s := by
  rcases s with _ | ⟨c, t⟩
  · exact absurd rfl hs
  · exact trimSpace_pad2 c t (by simpa using h1) h2

theorem processLine_middle (CS : Str) (acc : List columnDef) (d : producedColumn)
    (hwf : wfProducedCol d = true) :
    processLine CS ⟨acc, [], 0⟩ (str "  " ++ (renderDef d ++ str ",")) =
      ⟨acc ++ [reparsedOf d], [], 0⟩ := by
  obtain ⟨hn1, hn2, hf1, _, hp0, _⟩ := wf_unpack d hwf
  have hq : renderDef d = (str "`" ++ d.name ++ str "`") ++ (' ' :: defBody d) := by
    simp [renderDef, str, List.append_assoc]
  have hrev : (renderDef d ++ str ",").reverse = ',' :: (renderDef d).reverse := by
    rw [List.reverse_append]
    rfl
  have hts : trimSpaceL (str "  " ++ (renderDef d ++ str ",")) = renderDef d ++ str "," := by
    apply trimSpace_pad2_of
    · exact (by decide : isGoSpace bq = false)
    · rw [hrev]
      exact (by decide : isGoSpace ',' = false)
    · simp [str]
  have hle : (renderDef d ++ str ",").isEmpty = false := isEmpty_false_of_ne (by simp [str])
  have hpd : parenDelta (renderDef d ++ str ",") = 0 := by
    rw [parenDelta_append, hq, parenDelta_append,
      show (' ' :: defBody d) = [' '] ++ defBody d from rfl, parenDelta_append,
      parenDelta_append, parenDelta_append, parenDelta_word d.name hn2, hp0,
      show parenDelta (str "`") = 0 from by decide,
      show parenDelta [' '] = 0 from by decide,
      show parenDelta (str ",") = 0 from by decide]
    omega
  have hSfx : hasSfx (str ",") (renderDef d ++ str ",") = true := hasSfx_append_self _ _
  have hcur2 : trimSfxL (str ",") (renderDef d ++ str ",") = renderDef d :=
    trimSfx_append_self _ _
  have hfl : fieldsL (renderDef d) = (str "`" ++ d.name ++ str "`") :: fieldsL (defBody d) := by
    rw [hq]
    apply fieldsL_sep_cons
    · intro c hc
      rcases List.mem_append.mp hc with hc1 | hc2
      · rcases List.mem_append.mp hc1 with hc3 | hc4
        · rw [show (str "`") = [bq] from rfl, List.mem_singleton] at hc3
          subst hc3
          decide
        · exact wordChar_nonspace c (List.all_eq_true.mp hn2 c hc4)
      · rw [show (str "`") = [bq] from rfl, List.mem_singleton] at hc2
        subst hc2
        decide
    · simp [str]
  rcases hfb : fieldsL (defBody d) with _ | ⟨b0, bt⟩
  · exact absurd hfb hf1
  have hup : toUpperL (str "`" ++ (d.name ++ str "`")) ≠ str "PRIMARY" :=
    @ne_of_headD _ _ (Char.toUpper bq) 'P' rfl rfl (by decide)
  have hup2 : toUpperL (str "`" ++ d.name ++ str "`") ≠ str "PRIMARY" := by
    simpa [List.append_assoc] using hup
  simp only [processLine, hts, hle, Bool.false_eq_true, if_false]
  rw [hpd]
  simp only [hSfx, Bool.true_or, List.isEmpty_nil, if_true]
  rw [hcur2, hfl, hfb]
  simp only [add_zero, decide_True, Bool.true_and, if_true]
  rw [if_neg (by simp [hup])]
  rw [trimCut_quoted d.name hn2]

  simp [reparsedOf, hfb]

theorem pkLine_rev (pk : Str) :
    (pkLine pk).reverse = ')' :: ([bq] ++ (str "PRIMARY KEY (`" ++ pk).reverse) := by
  rw [show pkLine pk = (str "PRIMARY KEY (`" ++ pk) ++ str "`)" from rfl,
    List.reverse_append]
  rfl

theorem parenDelta_pkLine (pk : Str) (hpkw : pk.all isWordChar = true) :
    parenDelta (pkLine pk) = 0 := by
  rw [show pkLine pk = (str "PRIMARY KEY (`" ++ pk) ++ str "`)" from rfl,
    parenDelta_append, parenDelta_append, parenDelta_word pk hpkw,
    show parenDelta (str "PRIMARY KEY (`") = 1 from by decide,
    show parenDelta (str "`)") = -1 from by decide]
  omega

theorem fieldsL_pkLine (pk : Str) (hpkw : pk.all isWordChar = true) :
    fieldsL (pkLine pk) =
      str "PRIMARY" :: str "KEY" :: [str "(`" ++ pk ++ str "`)"] := by
  have htok3 : ∀ c ∈ str "(`" ++ pk ++ str "`)", isGoSpace c = false := by
    intro c hc
    rcases List.mem_append.mp hc with hc1 | hc2
    · rcases List.mem_append.mp hc1 with hc3 | hc4
      · have : ∀ x ∈ str "(`", isGoSpace x = false := by decide
        exact this c hc3
      · exact wordChar_nonspace c (List.all_eq_true.mp hpkw c hc4)
    · have : ∀ x ∈ str "`)", isGoSpace x = false := by decide
      exact this c hc2
  rw [show pkLine pk =
      str "PRIMARY" ++ ' ' :: (str "KEY" ++ ' ' :: (str "(`" ++ pk ++ str "`)")) from by
    simp [pkLine, str, List.append_assoc]]
  rw [fieldsL_sep_cons _ _ (by decide) (by decide),
    fieldsL_sep_cons _ _ (by decide) (by decide),
    fieldsL_single _ htok3 (by simp [str])]

theorem processLine_pk (CS : Str) (acc : List columnDef)
    (pk : Str) (hpkw : pk.all isWordChar = true) :
    (processLine CS ⟨acc, [], 0⟩ (str "  " ++ pkLine pk)).cols = acc := by
  have hts : trimSpaceL (str "  " ++ pkLine pk) = pkLine pk := by
    apply trimSpace_pad2_of
    · exact (by decide : isGoSpace 'P' = false)
    · rw [pkLine_rev]
      exact (by decide : isGoSpace ')' = false)
    · simp [pkLine, str]
  have hle : (pkLine pk).isEmpty = false := isEmpty_false_of_ne (by simp [pkLine, str])
  have hpd : parenDelta (pkLine pk) = 0 := parenDelta_pkLine pk hpkw
  have hSfx : hasSfx (str ",") (pkLine pk) = false := hasSfx_comma_pkLine pk
  have hcur2 : trimSfxL (str ",") (pkLine pk) = pkLine pk := trimSfx_no _ _ hSfx
  simp only [processLine, hts, hle, Bool.false_eq_true, if_false]
  rw [hpd]
  simp only [hSfx, Bool.false_or, List.isEmpty_nil, if_true]
  cases hcl : containsL (str ",") (CS.drop (pkLine pk).length) with
  | true =>
    rw [if_neg (by simp [hcl])]
  | false =>
    rw [if_pos (by simp [hcl])]
    rw [hcur2, fieldsL_pkLine pk hpkw]
    dsimp only
    rw [if_pos (by decide)]

theorem foldProcess (CS : Str) (pk : Str) (hpk : pk ≠ []) (hpkw : pk.all isWordChar = true) :
    ∀ (ds : List producedColumn) (acc : List columnDef),
      (∀ d ∈ ds, wfProducedCol d = true) →
      ((buildLines ((ds.map renderDef) ++ [pkLine pk])).foldl (processLine CS)
        ⟨acc, [], 0⟩).cols = acc ++ ds.map reparsedOf
  | [], acc, _ => by
    rw [show (([] : List producedColumn).map renderDef) ++ [pkLine pk] = [pkLine pk] from
      by simp]
    rw [show buildLines [pkLine pk] = [str "  " ++ pkLine pk, []] from rfl]
    rw [List.foldl_cons, List.foldl_cons, List.foldl_nil, processLine_empty]
    rw [processLine_pk CS acc pk hpkw]
    simp
  | d :: ds, acc, hwf => by
    rcases hX : ds.map renderDef ++ [pkLine pk] with _ | ⟨x0, xt⟩
    · exact absurd hX (by simp)
    rw [show (((d :: ds).map renderDef) ++ [pkLine pk]) = renderDef d :: (x0 :: xt) from by
      simp only [List.map_cons, List.cons_append, hX]]
    rw [show buildLines (renderDef d :: x0 :: xt) =
      (str "  " ++ renderDef d ++ str ",") :: buildLines (x0 :: xt) from rfl]
    rw [List.foldl_cons]
    rw [show str "  " ++ renderDef d ++ str "," = str "  " ++ (renderDef d ++ str ",") from
      by simp [List.append_assoc]]
    rw [processLine_middle CS acc d (hwf d (by simp))]
    rw [← hX]
    rw [foldProcess CS pk hpk hpkw ds (acc ++ [reparsedOf d])
      (fun d2 hd2 => hwf d2 (by simp [hd2]))]
    simp

theorem parseCreateTable_canonical (T C : Str) (hT : T ≠ [])
    (hTw : T.all isWordChar = true) (hC : C ≠ []) :
    parseCreateTable (str "CREATE TABLE `" ++ (T ++ (str "` (" ++ (C ++ str ");")))) =
      .ok ⟨T, ((splitCharL '\n' C).foldl (processLine C) ⟨[], [], 0⟩).cols, []⟩ := by
  have htr : trimSpaceL (str "CREATE TABLE `" ++ (T ++ (str "` (" ++ (C ++ str ");")))) =
      str "CREATE TABLE `" ++ (T ++ (str "` (" ++ (C ++ str ");"))) := by
    rw [show str "CREATE TABLE `" ++ (T ++ (str "` (" ++ (C ++ str ");"))) =
      'C' :: (str "REATE TABLE `" ++ (T ++ (str "` (" ++ (C ++ str ");")))) from rfl]
    apply trimSpace_id_cons
    · decide
    · rw [show ('C' :: (str "REATE TABLE `" ++ (T ++ (str "` (" ++ (C ++ str ");"))))) =
        str "CREATE TABLE `" ++ (T ++ (str "` (" ++ (C ++ str ");"))) from rfl]
      rw [List.reverse_append, List.reverse_append, List.reverse_append,
        List.reverse_append]
      exact (by decide : isGoSpace ';' = false)
  simp only [parseCreateTable]
  rw [htr]
  rw [show str "CREATE TABLE `" ++ (T ++ (str "` (" ++ (C ++ str ");"))) =
    'C' :: (str "REATE TABLE `" ++ (T ++ (str "` (" ++ (C ++ str ");")))) from rfl]
  simp only [matchCreateFirst]
  rw [show ('C' :: (str "REATE TABLE `" ++ (T ++ (str "` (" ++ (C ++ str ");"))))) =
    str "CREATE TABLE `" ++ (T ++ (str "` (" ++ (C ++ str ");"))) from rfl]
  rw [matchCreateAt_render T C hT hTw hC]

/-- C4 (amended): the spec claims re-parsing the compiled CREATE TABLE text
recovers the producing column list exactly in names, types, and constraint
lists. For a model with a primary key and well-formed rendered columns the
names are recovered exactly, but the type and constraint list come back
re-tokenized on whitespace: the recovered type is the first whitespace token
of the rendered type-and-constraints text, and the recovered constraint list
is the list of remaining tokens, so multi-word types and constraints are
regrouped (`claim4_counterexample` exhibits the mismatch on `NOT NULL`). -/
theorem claim4_roundtrip_modulo_tokens (m : Model)
    (hpk : findPrimaryKeyName m ≠ [])
    (hpkw : (findPrimaryKeyName m).all isWordChar = true)
    (htn : getTableName m ≠ [])
    (htw : (getTableName m).all isWordChar = true)
    (hwf : ∀ d ∈ parseModelDefs m, wfProducedCol d = true) :
    parseCreateTable (parseModelToSQLWithIndexes m).1 =
      .ok ⟨getTableName m, (parseModelDefs m).map reparsedOf, []⟩ := by
  have hnames : ∀ d ∈ parseModelDefs m, d.name.all isWordChar = true :=
    fun d hd => (wf_unpack d (hwf d hd)).2.1
  have hsql : (parseModelToSQLWithIndexes m).1 =
      str "CREATE TABLE `" ++ (getTableName m ++ (str "` (" ++
        ((str "\n  " ++ joinSepL (str ",\n  ")
            ((parseModelDefs m).map renderDef ++ [pkLine (findPrimaryKeyName m)]) ++
          str "\n") ++ str ");"))) := by
    rcases hpm : parseModel m with ⟨tn, cols0, idxs⟩
    have htn2 : tn = getTableName m := by
      rw [show getTableName m = (parseModel m).1 from rfl, hpm]
    have hcols : cols0 = (parseModelDefs m).map renderDef := by
      rw [show cols0 = (parseModel m).2.1 from by rw [hpm]]
      exact parseModel_cols_render m hnames
    have hpke : (findPrimaryKeyName m).isEmpty = false := isEmpty_false_of_ne hpk
    simp only [parseModelToSQLWithIndexes, hpm, hpke, Bool.false_eq_true, if_false]
    rw [htn2, hcols]
    rw [show (str "PRIMARY KEY (`" ++ findPrimaryKeyName m ++ str "`)") =
      pkLine (findPrimaryKeyName m) from rfl]
    rw [show str "` (\n  " = str "` (" ++ str "\n  " from rfl,
      show str "\n);" = str "\n" ++ str ");" from rfl]
    simp [List.append_assoc]
  rw [hsql]
  have hC : (str "\n  " ++ joinSepL (str ",\n  ")
      ((parseModelDefs m).map renderDef ++ [pkLine (findPrimaryKeyName m)]) ++
      str "\n") ≠ [] := by simp [str]
  rw [parseCreateTable_canonical _ _ htn htw hC]
  have hnl : ∀ s ∈ (parseModelDefs m).map renderDef ++ [pkLine (findPrimaryKeyName m)],
      ∀ ch ∈ s, ¬(ch = '\n') := by
    intro s hs ch hch
    rcases List.mem_append.mp hs with hs1 | hs2
    · obtain ⟨d, hd, rfl⟩ := List.mem_map.mp hs1
      obtain ⟨_, hn2, _, hb4, _, _⟩ := wf_unpack d (hwf d hd)
      rw [show renderDef d = (str "`" ++ d.name ++ str "`") ++ (' ' :: defBody d) from by
        simp [renderDef, str, List.append_assoc]] at hch
      rcases List.mem_append.mp hch with h1 | h2
      · rcases List.mem_append.mp h1 with h3 | h4
        · rcases List.mem_append.mp h3 with h5 | h6
          · rw [show (str "`") = [bq] from rfl, List.mem_singleton] at h5
            subst h5
            decide
          · exact (wordChar_facts ch (List.all_eq_true.mp hn2 ch h6)).2.2.2.2.2
        · rw [show (str "`") = [bq] from rfl, List.mem_singleton] at h4
          subst h4
          decide
      · rcases List.mem_cons.mp h2 with rfl | h7
        · decide
        · exact hb4 ch h7
    · rw [List.mem_singleton] at hs2
      subst hs2
      rw [show pkLine (findPrimaryKeyName m) =
        (str "PRIMARY KEY (`" ++ findPrimaryKeyName m) ++ str "`)" from rfl] at hch
      rcases List.mem_append.mp hch with h1 | h2
      · rcases List.mem_append.mp h1 with h3 | h4
        · have hlit : ∀ x ∈ str "PRIMARY KEY (`", ¬(x = '\n') := by decide
          exact hlit ch h3
        · exact (wordChar_facts ch (List.all_eq_true.mp hpkw ch h4)).2.2.2.2.2
      · have hlit : ∀ x ∈ str "`)", ¬(x = '\n') := by decide
        exact hlit ch h2
  rw [show (str "\n  " ++ joinSepL (str ",\n  ")
      ((parseModelDefs m).map renderDef ++ [pkLine (findPrimaryKeyName m)]) ++
      str "\n") =
    '\n' :: (str "  " ++ joinSepL (str ",\n  ")
      ((parseModelDefs m).map renderDef ++ [pkLine (findPrimaryKeyName m)]) ++
      str "\n") from rfl]
  rw [splitChar_sep_cons]
  rw [splitChar_buildLines _ (by simp) hnl]
  rw [List.foldl_cons, processLine_empty]
  rw [foldProcess _ _ hpk hpkw (parseModelDefs m) [] hwf]
  simp

/-- Witness: the amended C4 round-trip theorem applied to the concrete
single-column model `c4Model`, whose hypotheses all hold by computation. -/
theorem claim4_witness :
    (findPrimaryKeyName c4Model ≠ [] ∧
      (∀ d ∈ parseModelDefs c4Model, wfProducedCol d = true)) ∧
    parseCreateTable (parseModelToSQLWithIndexes c4Model).1 =
      .ok ⟨getTableName c4Model, (parseModelDefs c4Model).map reparsedOf, []⟩ :=
  ⟨⟨by decide, by decide⟩,
    claim4_roundtrip_modulo_tokens c4Model (by decide) (by decide) (by decide)
      (by decide) (by decide)⟩
